import Mathlib

/-!
# LM Studio load balancer: selection, body rewriting and in-flight accounting

A shallow embedding of `src/server.js`.  The two process-wide variables
`availableModels` and `inProgressModels` are carried explicitly in `Globals`;
functions that mutate them return the new value.  JavaScript exceptions are the
`error` side of `Except JsError`.

Model identifiers are JavaScript strings.  The JavaScript semantics that the
source relies on is embedded as it is:

* truthiness (`body.model`, `req.selectedModel`, `!bodyContent`): the empty
  string, `null`, `false` and `0` are falsy;
* `modelRequestCounts` is created with `{}` and therefore inherits the
  properties of `Object.prototype`; reading an inherited name gives a function
  (or, for `__proto__`, the prototype object), which is truthy and compares as
  `NaN`;
* `typeof` is `'object'` for arrays, plain objects and `Buffer`s alike;
* a template string converts the values it interpolates to strings, which
  throws for `null.id` and for an object whose own `toString` is not callable.

`JSON.parse` and `JSON.stringify` are parameters (`JsonLib`); both can throw.
The backend's answer to the listing call is the argument of `loadModels`.
-/

namespace LoadBalancer

/-! ## Data model -/

/-- A record of the backend listing: `{id, state}`. -/
structure Model where
  id : String
  state : String
deriving DecidableEq, Repr

/-- The module-level variables `availableModels` and `inProgressModels`
(`server.js` lines 46-47). -/
structure Globals where
  availableModels : List Model
  inProgressModels : List String
deriving DecidableEq, Repr

/-- The exceptions that the embedded code can throw. -/
inductive JsError where
  | noModelsAvailable
  | typeError
  | syntaxError
  | rangeError
deriving DecidableEq, Repr

/-! ## `selectModel` (lines 114-139) -/

/-- Property names that every object created with `{}` inherits from
`Object.prototype`. -/
def objectPrototypeKeys : List String :=
  ["constructor", "__defineGetter__", "__defineSetter__", "hasOwnProperty",
   "__lookupGetter__", "__lookupSetter__", "isPrototypeOf", "propertyIsEnumerable",
   "toString", "valueOf", "__proto__", "toLocaleString"]

/-- What a property read on `modelRequestCounts` can give: `undefined`, a number,
or a value that is not a number (an inherited function or object, or the string
that `+ 1` makes of it). -/
inductive CountVal where
  | undefined
  | num (n : Nat)
  | other
deriving DecidableEq, Repr

/-- The object `modelRequestCounts`, as the list of its own properties in
insertion order. -/
abbrev CountObj := List (String × CountVal)

/-- Property read `o[k]` on an object whose prototype is `Object.prototype`. -/
def getProp (o : CountObj) (k : String) : CountVal :=
  match o.find? (fun p => p.1 == k) with
  | some p => p.2
  | none => if k ∈ objectPrototypeKeys then CountVal.other else CountVal.undefined

/-- Property write `o[k] = v` for a primitive `v`: the `__proto__` setter ignores
primitives, every other name becomes (or stays) an own property. -/
def setProp (o : CountObj) (k : String) (v : CountVal) : CountObj :=
  if k = "__proto__" then o
  else if o.any (fun p => p.1 == k) then o.map (fun p => if p.1 == k then (k, v) else p)
  else o ++ [(k, v)]

/-- `(x || 0) + 1`: on a non-number `+` concatenates strings. -/
def bump : CountVal → CountVal
  | CountVal.undefined => CountVal.num 1
  | CountVal.num n => CountVal.num (n + 1)
  | CountVal.other => CountVal.other

/-- `x || 0`. -/
def orZero : CountVal → CountVal
  | CountVal.undefined => CountVal.num 0
  | CountVal.num n => CountVal.num n
  | CountVal.other => CountVal.other

/-- Lines 120-123: the `forEach` that fills `modelRequestCounts`. -/
def countRequests (inProgress : List String) : CountObj :=
  inProgress.foldl (fun o modelId => setProp o modelId (bump (getProp o modelId))) []

/-- The comparison `requestCount < minRequests`; `none` is `Infinity`, and a
non-number converts to `NaN`, for which `<` is false. -/
def lessThan : CountVal → Option Nat → Bool
  | CountVal.num _, none => true
  | CountVal.num n, some m => decide (n < m)
  | _, _ => false

/-- Loop state of lines 126-135: `selectedModel` (`none` is `null`) and
`minRequests` (`none` is `Infinity`). -/
structure Best where
  selectedModel : Option Model
  minRequests : Option Nat
deriving DecidableEq, Repr

/-- One iteration of the `for ... of availableModels` loop. -/
def selectStep (counts : CountObj) (b : Best) (model : Model) : Best :=
  match orZero (getProp counts model.id) with
  | CountVal.num n =>
      if lessThan (CountVal.num n) b.minRequests then ⟨some model, some n⟩ else b
  | _ => b

/-- Lines 114-139.  The template string of line 137 reads `selectedModel.id`,
which throws a `TypeError` when `selectedModel` is still `null`. -/
def selectModel (g : Globals) : Except JsError Model :=
  if g.availableModels.length = 0 then Except.error JsError.noModelsAvailable
  else
    let counts := countRequests g.inProgressModels
    let b := g.availableModels.foldl (selectStep counts) ⟨none, none⟩
    match b.selectedModel with
    | none => Except.error JsError.typeError
    | some m => Except.ok m

/-! ## JSON values and request bodies -/

/-- A value as produced by `JSON.parse` (or by a JSON body parser).  Numbers are
kept as integers: the code only tests them for zero. -/
inductive JVal where
  | null
  | bool (b : Bool)
  | num (n : Int)
  | str (s : String)
  | arr (xs : List JVal)
  | obj (fields : List (String × JVal))

/-- The platform functions `JSON.parse` (`none` is a thrown `SyntaxError`) and
`JSON.stringify` (`none` is a thrown exception, such as the `RangeError` of a
serialiser that runs out of stack on a deeply nested value), taken as
parameters. -/
structure JsonLib where
  parse : String → Option JVal
  stringify : JVal → Option String

/-- The argument `bodyContent` of `modifyRequestBody`: `null`, a pre-parsed array
or object, a string, or a `Buffer` of bytes. -/
inductive BodyContent where
  | null
  | arr (xs : List JVal)
  | obj (fields : List (String × JVal))
  | text (s : String)
  | buffer (bytes : List Nat)

/-- The local variable `body` of `modifyRequestBody`: a JSON value, or the
`Buffer` itself. -/
inductive BodyVal where
  | json (v : JVal)
  | buffer (bytes : List Nat)

/-- JavaScript truthiness of a JSON value. -/
def truthy : JVal → Bool
  | JVal.null => false
  | JVal.bool b => b
  | JVal.num n => decide (n ≠ 0)
  | JVal.str s => decide (s ≠ "")
  | JVal.arr _ => true
  | JVal.obj _ => true

/-- Own-property read on a parsed object; `none` is `undefined`. -/
def getField (fields : List (String × JVal)) (k : String) : Option JVal :=
  (fields.find? (fun p => p.1 == k)).map Prod.snd

/-- Own-property write on a parsed object: an existing key keeps its place, a
new key is appended. -/
def setField (fields : List (String × JVal)) (k : String) (v : JVal) :
    List (String × JVal) :=
  if fields.any (fun p => p.1 == k) then fields.map (fun p => if p.1 == k then (k, v) else p)
  else fields ++ [(k, v)]

mutual
/-- Whether converting a JSON value to a string (as a template literal does)
throws: a parsed object whose own `toString` property shadows the inherited
method cannot be converted, and an array converts each of its elements. -/
def stringConversionThrows : JVal → Bool
  | JVal.obj fields => fields.any (fun p => p.1 == "toString")
  | JVal.arr xs => joinThrows xs
  | _ => false
/-- Whether `Array.prototype.join`, which converts the elements in turn, throws. -/
def joinThrows : List JVal → Bool
  | [] => false
  | x :: xs => stringConversionThrows x || joinThrows xs
end

/-- The value `Buffer.prototype.toJSON` gives, which `JSON.stringify` serialises. -/
def bufferToJSON (bytes : List Nat) : JVal :=
  JVal.obj [("type", JVal.str "Buffer"), ("data", JVal.arr (bytes.map (fun b => JVal.num b)))]

/-- The per-request state: the property `req.selectedModel` (`none` is
`undefined`) and the closure variable `cleanupDone` of the middleware. -/
structure Req where
  selectedModel : Option String
  cleanupDone : Bool
deriving DecidableEq, Repr

/-- A request on arrival: nothing assigned, cleanup not done. -/
def Req.fresh : Req := ⟨none, false⟩

/-! ## `modifyRequestBody` (lines 147-200) -/

/-- Line 148: `!bodyContent || bodyContent.length === 0`. -/
def isFalsyOrEmpty : BodyContent → Bool
  | BodyContent.null => true
  | BodyContent.arr xs => xs.isEmpty
  | BodyContent.obj fields =>
      match getField fields "length" with
      | some (JVal.num n) => decide (n = 0)
      | _ => false
  | BodyContent.text s => decide (s = "")
  | BodyContent.buffer bytes => bytes.isEmpty

/-- Lines 154-160: a value whose `typeof` is `'object'` is taken as it is, anything
else is converted to a string and parsed. -/
def parseBody (J : JsonLib) : BodyContent → Except JsError BodyVal
  | BodyContent.null => Except.error JsError.typeError
  | BodyContent.arr xs => Except.ok (BodyVal.json (JVal.arr xs))
  | BodyContent.obj fields => Except.ok (BodyVal.json (JVal.obj fields))
  | BodyContent.text s =>
      match J.parse s with
      | some v => Except.ok (BodyVal.json v)
      | none => Except.error JsError.syntaxError
  | BodyContent.buffer bytes => Except.ok (BodyVal.buffer bytes)

/-- The call `JSON.stringify(v)`, returning the string as a body or throwing. -/
def serialise (J : JsonLib) (v : JVal) : Except JsError BodyContent :=
  match J.stringify v with
  | some out => Except.ok (BodyContent.text out)
  | none => Except.error JsError.rangeError

/-- Lines 183-187 and 194-198: the body that is returned when nothing is
replaced. -/
def passThrough (J : JsonLib) : BodyContent → Except JsError BodyContent
  | BodyContent.null => Except.error JsError.typeError
  | BodyContent.arr xs => serialise J (JVal.arr xs)
  | BodyContent.obj fields => serialise J (JVal.obj fields)
  | BodyContent.text s => Except.ok (BodyContent.text s)
  | BodyContent.buffer bytes => serialise J (bufferToJSON bytes)

/-- What a block of `modifyRequestBody` leaves behind: the value returned or the
exception thrown, the argument object `bodyContent` (which the block may have
written to), the request and the globals. -/
structure Outcome where
  result : Except JsError BodyContent
  bodyContent : BodyContent
  req : Req
  g : Globals

/-- The write `body.model = id` as seen through `bodyContent`: a pre-parsed
object is the same object as `body`, a string is not affected. -/
def writeThrough (bodyContent : BodyContent) (fields : List (String × JVal)) : BodyContent :=
  match bodyContent with
  | BodyContent.obj _ => BodyContent.obj fields
  | other => other

/-- Lines 162-187, entered with the parsed `body`.  The read `body.model` throws
on `null` and gives `undefined` on anything that is not an object with that
property; the template string of line 175 converts the original model value to a
string, and line 179 serialises the body, after the request, the tracker and the
body have been written. -/
def replaceModel (J : JsonLib) (bodyContent : BodyContent) (body : BodyVal) (srcReq : Req)
    (g : Globals) : Outcome :=
  if g.availableModels.length > 0 then
    match body with
    | BodyVal.json JVal.null => ⟨Except.error JsError.typeError, bodyContent, srcReq, g⟩
    | BodyVal.json (JVal.obj fields) =>
        match getField fields "model" with
        | none => ⟨passThrough J bodyContent, bodyContent, srcReq, g⟩
        | some originalModel =>
            if truthy originalModel then
              match selectModel g with
              | Except.error e => ⟨Except.error e, bodyContent, srcReq, g⟩
              | Except.ok selectedModel =>
                  let srcReq1 : Req := { srcReq with selectedModel := some selectedModel.id }
                  let g1 : Globals :=
                    { g with inProgressModels := g.inProgressModels ++ [selectedModel.id] }
                  let fields1 := setField fields "model" (JVal.str selectedModel.id)
                  let bodyContent1 := writeThrough bodyContent fields1
                  if stringConversionThrows originalModel then
                    ⟨Except.error JsError.typeError, bodyContent1, srcReq1, g1⟩
                  else
                    ⟨serialise J (JVal.obj fields1), bodyContent1, srcReq1, g1⟩
            else ⟨passThrough J bodyContent, bodyContent, srcReq, g⟩
    | _ => ⟨passThrough J bodyContent, bodyContent, srcReq, g⟩
  else ⟨passThrough J bodyContent, bodyContent, srcReq, g⟩

/-- The `try` block, lines 150-187. -/
def tryBlock (J : JsonLib) (bodyContent : BodyContent) (srcReq : Req) (g : Globals) :
    Outcome :=
  match parseBody J bodyContent with
  | Except.error e => ⟨Except.error e, bodyContent, srcReq, g⟩
  | Except.ok body => replaceModel J bodyContent body srcReq g

/-- Lines 147-200: the early return, the `try` block, and the `catch` block that
returns the original body; the `catch` block serialises a pre-parsed body again,
outside any `try`. -/
def modifyRequestBody (J : JsonLib) (bodyContent : BodyContent) (srcReq : Req)
    (g : Globals) : Outcome :=
  if isFalsyOrEmpty bodyContent then ⟨Except.ok bodyContent, bodyContent, srcReq, g⟩
  else
    let t := tryBlock J bodyContent srcReq g
    match t.result with
    | Except.ok v => ⟨Except.ok v, t.bodyContent, t.req, t.g⟩
    | Except.error _ => ⟨passThrough J t.bodyContent, t.bodyContent, t.req, t.g⟩

/-! ## Cleanup (lines 245-260), `loadModels` (54-77), the refresh tick (85-106) -/

/-- Lines 249-260: the `cleanup` closure of one request.  `indexOf` and `splice`
remove the first entry equal to the model; a string is truthy when it is not
empty. -/
def cleanup (req : Req) (g : Globals) : Req × Globals :=
  match req.selectedModel with
  | none => (req, g)
  | some modelToRelease =>
      if modelToRelease ≠ "" ∧ req.cleanupDone = false then
        ({ req with cleanupDone := true },
         { g with inProgressModels := g.inProgressModels.erase modelToRelease })
      else (req, g)

/-- Lines 54-77.  `response` is `none` when the listing call (or reading the list
out of its answer) throws.  Returns the new globals and the returned array. -/
def loadModels (response : Option (List Model)) (g : Globals) : Globals × List Model :=
  match response with
  | some data =>
      let loaded := data.filter (fun model => model.state == "loaded")
      ({ g with availableModels := loaded }, loaded)
  | none => ({ g with availableModels := [] }, [])

/-- Lines 85-106: the timer callback, `loadModels` followed by the filter on
`inProgressModels`. -/
def refreshTick (response : Option (List Model)) (g : Globals) : Globals :=
  let g1 := (loadModels response g).1
  let availableModelIds := g1.availableModels.map (fun m => m.id)
  { g1 with inProgressModels :=
      g1.inProgressModels.filter (fun modelId => decide (modelId ∈ availableModelIds)) }

/-! ## The process as a transition system -/

/-- The globals together with the request objects, indexed by a request number. -/
structure Sys where
  g : Globals
  reqs : Nat → Req

/-- The callback turns that touch the shared state. -/
inductive Event where
  | rewrite (r : Nat) (bodyContent : BodyContent)
  | cleanup (r : Nat)
  | refresh (response : Option (List Model))

/-- Replace the request object number `r`. -/
def setReq (reqs : Nat → Req) (r : Nat) (q : Req) : Nat → Req :=
  fun i => if i = r then q else reqs i

/-- One turn. -/
def step (J : JsonLib) (s : Sys) : Event → Sys
  | Event.rewrite r bodyContent =>
      let o := modifyRequestBody J bodyContent (s.reqs r) s.g
      ⟨o.g, setReq s.reqs r o.req⟩
  | Event.cleanup r =>
      let c := cleanup (s.reqs r) s.g
      ⟨c.2, setReq s.reqs r c.1⟩
  | Event.refresh response => ⟨refreshTick response s.g, s.reqs⟩

/-- A sequence of turns. -/
def run (J : JsonLib) (s : Sys) (es : List Event) : Sys :=
  es.foldl (step J) s

/-- The requests that a trace rewrites, in order. -/
def rewritten : List Event → List Nat
  | [] => []
  | Event.rewrite r _ :: es => r :: rewritten es
  | _ :: es => rewritten es

/-- The state the process starts from: a registry, no tracker entries, and
requests that have not been touched. -/
def Sys.start (registry : List Model) : Sys :=
  ⟨⟨registry, []⟩, fun _ => Req.fresh⟩

/-- The in-flight count of a model: the number of tracker entries equal to it. -/
def inFlight (g : Globals) (m : String) : Nat :=
  g.inProgressModels.count m

/-! ## Specification-level definitions -/

/-- The value that a read of `modelRequestCounts` gives, in terms of the tracker. -/
def countSpec (inProgress : List String) (k : String) : CountVal :=
  if k ∈ objectPrototypeKeys then CountVal.other
  else if inProgress.count k = 0 then CountVal.undefined
  else CountVal.num (inProgress.count k)

/-- The loop invariant of `selectModel` after the models `l` have been visited:
nothing is selected while only inherited names were seen, otherwise the selected
model is the first one, among those whose id is not an inherited name, with the
least number of tracker entries. -/
def SelectInv (inProgress : List String) (l : List Model) (b : Best) : Prop :=
  (b = ⟨none, none⟩ ∧ ∀ x ∈ l, x.id ∈ objectPrototypeKeys) ∨
  (∃ pre m post, l = pre ++ m :: post ∧ b = ⟨some m, some (inProgress.count m.id)⟩ ∧
    m.id ∉ objectPrototypeKeys ∧
    (∀ x ∈ pre, x.id ∉ objectPrototypeKeys → inProgress.count m.id < inProgress.count x.id) ∧
    (∀ x ∈ post, x.id ∉ objectPrototypeKeys → inProgress.count m.id ≤ inProgress.count x.id))

/-- A small `JsonLib` for the worked examples: it serialises the objects
`{"model": s}` and reads back the text `{"model":"ignored"}`. -/
def demoJson : JsonLib where
  parse := fun s =>
    if s = "\x7b\"model\":\"ignored\"\x7d" then some (JVal.obj [("model", JVal.str "ignored")])
    else none
  stringify := fun v =>
    match v with
    | JVal.obj [("model", JVal.str s)] => some ("\x7b\"model\":\"" ++ s ++ "\"\x7d")
    | _ => some "null"

/-- A `JsonLib` whose serialiser runs out of stack at nesting depth three: it
throws on `[[[]]]`, a value that its parser accepts. -/
def shallowJson : JsonLib where
  parse := fun s =>
    if s = "[[[]]]" then some (JVal.arr [JVal.arr [JVal.arr []]]) else none
  stringify := fun v =>
    match v with
    | JVal.arr [JVal.arr [JVal.arr []]] => none
    | _ => some "null"

/-- Invoking the cleanup action of one request `n` times in a row. -/
def cleanupTimes (n : Nat) (req : Req) (g : Globals) : Req × Globals :=
  (fun p : Req × Globals => cleanup p.1 p.2)^[n] (req, g)

/-- The code's own record of a request: it holds `m` and its flag `cleanupDone`
is not set. -/
def unreleased (q : Req) (m : String) : Bool :=
  decide (q.selectedModel = some m) && !q.cleanupDone

/-- The number of requests among `rs` that hold `m` with the flag not set. -/
def unreleasedCount (s : Sys) (rs : List Nat) (m : String) : Nat :=
  rs.countP (fun r => unreleased (s.reqs r) m)

/-- The model id a request holds (`""` when it holds none). -/
def heldModel (q : Req) : String :=
  q.selectedModel.getD ""

/-- The event is a cleanup invocation for request `r`. -/
def isCleanupOf (r : Nat) : Event → Bool
  | Event.cleanup r' => decide (r' = r)
  | _ => false

/-- The event is a refresh tick. -/
def isRefresh : Event → Bool
  | Event.refresh _ => true
  | _ => false

/-- The trace invokes the cleanup of request `r` at least once after the rewrite
of `r`. -/
def invokedAfter (r : Nat) : List Event → Bool
  | [] => false
  | Event.rewrite r' _ :: es =>
      if r' = r then es.any (isCleanupOf r) else invokedAfter r es
  | _ :: es => invokedAfter r es

/-- The number of requests among `rs` that were assigned `m`. -/
def assignedCount (s : Sys) (rs : List Nat) (m : String) : Nat :=
  rs.countP (fun r => decide ((s.reqs r).selectedModel = some m))

/-- The number of requests that were assigned `m` and whose cleanup the trace
invokes at least once after the assignment. -/
def releasedCount (s : Sys) (es : List Event) (m : String) : Nat :=
  (rewritten es).countP
    (fun r => decide ((s.reqs r).selectedModel = some m) && invokedAfter r es)

/-- After the trace `es`, request `r` is in flight against `m`: it was assigned
`m`, and its cleanup has not been invoked since its rewrite. -/
def inFlightAgainst (s : Sys) (es : List Event) (m : String) (r : Nat) : Bool :=
  decide ((s.reqs r).selectedModel = some m) && !invokedAfter r es

/-- The number of requests in flight against `m` after the trace `es`. -/
def inFlightRequests (s : Sys) (es : List Event) (m : String) : Nat :=
  (rewritten es).countP (inFlightAgainst s es m)

/-- After the trace `es`, request `r` has been assigned a model and its cleanup
has not been invoked since its rewrite. -/
def awaitsCleanup (s : Sys) (es : List Event) (r : Nat) : Bool :=
  (s.reqs r).selectedModel.isSome && !invokedAfter r es

/-- Neither the registry the process starts with nor a listing that a refresh
tick of the trace receives holds a model with the empty id. -/
def NoEmptyId (registry : List Model) (es : List Event) : Prop :=
  (∀ x ∈ registry, x.id ≠ "") ∧
    ∀ data, Event.refresh (some data) ∈ es → ∀ x ∈ data, x.id ≠ ""

/-- Every refresh tick of the trace, run from `s`, finds only tracker entries of
models that it keeps listed: it leaves the tracker as it is. -/
def NoPrune (J : JsonLib) (s : Sys) (es : List Event) : Prop :=
  ∀ pre response post, es = pre ++ Event.refresh response :: post →
    (refreshTick response (run J s pre).g).inProgressModels
      = (run J s pre).g.inProgressModels

/-- The parsed body is an object with an own `model` property. -/
def hasModelField : BodyVal → Bool
  | BodyVal.json (JVal.obj fields) => (getField fields "model").isSome
  | _ => false

/-- Lines 300-306: the body decorator of the proxy.  It returns what
`modifyRequestBody` returns (logging of the request URL aside), and the proxy
sends that value as the body of the request to the backend. -/
def proxyReqBodyDecorator (J : JsonLib) (bodyContent : BodyContent) (srcReq : Req)
    (g : Globals) : Outcome :=
  modifyRequestBody J bodyContent srcReq g

/-- The body reaches line 162 as an object whose `model` property is truthy: it
passes line 148, and it is a pre-parsed object or a string that parses to an
object. -/
def Replaceable (J : JsonLib) (bodyContent : BodyContent) : Prop :=
  isFalsyOrEmpty bodyContent = false ∧
    ∃ fields v, parseBody J bodyContent = Except.ok (BodyVal.json (JVal.obj fields)) ∧
      getField fields "model" = some v ∧ truthy v = true

/-- The rewrite turns of a list of requests, given as request number and body. -/
def rewrites (reqs : List (Nat × BodyContent)) : List Event :=
  reqs.map (fun p => Event.rewrite p.1 p.2)

/-- Cleanup invocations for a list of request numbers. -/
def cleanups (rs : List Nat) : List Event :=
  rs.map (fun r => Event.cleanup r)

/-! # Theorems -/

/-! ## Facts about `modelRequestCounts` -/

theorem find_map_keep {α : Type} (o : List (String × α)) (k k' : String) (v : α) :
    (o.map (fun p => if p.1 == k then (k, v) else p)).find? (fun p => p.1 == k')
      = (o.find? (fun p => p.1 == k')).map (fun p => if p.1 == k then (k, v) else p) := by
  induction o with
  | nil => rfl
  | cons a o ih =>
    simp only [List.map_cons, List.find?_cons]
    rw [ih]
    cases h1 : (a.1 == k) <;> cases h2 : (a.1 == k')
    · simp [h1, h2]
    · have h1' : ¬ a.1 = k := by simpa using h1
      simp [h1, h2, h1']
    · have h3 : (k == k') = false := by
        rw [beq_iff_eq] at h1; rw [← h1]; exact h2
      simp [h1, h2, h3]
    · have h3 : (k == k') = true := by
        rw [beq_iff_eq] at h1; rw [← h1]; exact h2
      have h1' : a.1 = k := by simpa using h1
      simp [h1, h2, h3, h1']

/-- Reading back after a property write that replaces the value of an existing
key or appends a new key. -/
theorem find_write {α : Type} (o : List (String × α)) (k k' : String) (v : α) :
    (if o.any (fun p => p.1 == k) then o.map (fun p => if p.1 == k then (k, v) else p)
      else o ++ [(k, v)]).find? (fun p => p.1 == k')
      = if k' = k then some (k, v) else o.find? (fun p => p.1 == k') := by
  by_cases hany : o.any (fun p => p.1 == k) = true
  · rw [if_pos hany, find_map_keep]
    by_cases hk : k' = k
    · subst hk
      obtain ⟨a, ha, hak⟩ := List.any_eq_true.mp hany
      cases hf : o.find? (fun p => p.1 == k') with
      | none =>
        have := List.find?_eq_none.mp hf a ha
        exact absurd hak this
      | some q =>
        have hq := List.find?_some hf
        simp at hq
        simp [hq]
    · cases hf : o.find? (fun p => p.1 == k') with
      | none => simp [hk]
      | some q =>
        have hq := List.find?_some hf
        simp at hq
        have : ¬ q.1 = k := fun h => hk (hq.symm.trans h)
        simp [hk, this]
  · rw [if_neg hany, List.find?_append]
    have hnone : ∀ a ∈ o, ¬ a.1 = k := by
      intro a ha h
      exact hany (List.any_eq_true.mpr ⟨a, ha, by simp [h]⟩)
    by_cases hk : k' = k
    · subst hk
      have : o.find? (fun p => p.1 == k') = none := by
        apply List.find?_eq_none.mpr
        intro a ha; simpa using hnone a ha
      simp [this]
    · have hk2 : ¬ k = k' := fun h => hk h.symm
      cases hf : o.find? (fun p => p.1 == k') with
      | none =>
        have hb : (k == k') = false := by simpa using hk2
        simp [hk, List.find?, hb]
      | some q => simp [hk]

theorem getProp_setProp (o : CountObj) (k k' : String) (v : CountVal) :
    getProp (setProp o k v) k'
      = if k' = k ∧ k ≠ "__proto__" then v else getProp o k' := by
  unfold setProp
  by_cases hp : k = "__proto__"
  · simp [hp]
  · rw [if_neg hp]
    unfold getProp
    rw [find_write]
    by_cases hk : k' = k
    · simp [hk, hp]
    · simp [hk]

theorem getField_setField (fields : List (String × JVal)) (k k' : String) (v : JVal) :
    getField (setField fields k v) k' = if k' = k then some v else getField fields k' := by
  unfold getField setField
  rw [find_write]
  by_cases hk : k' = k
  · simp [hk]
  · simp [hk]

theorem setField_keys (fields : List (String × JVal)) (k : String) (v : JVal)
    (h : (getField fields k).isSome = true) :
    (setField fields k v).map Prod.fst = fields.map Prod.fst := by
  have hany : fields.any (fun p => p.1 == k) = true := by
    unfold getField at h
    cases hf : fields.find? (fun p => p.1 == k) with
    | none => simp [hf] at h
    | some q =>
      have hq := List.find?_some hf
      exact List.any_eq_true.mpr ⟨q, List.mem_of_find?_eq_some hf, hq⟩
  unfold setField
  rw [if_pos hany, List.map_map]
  apply List.map_congr_left
  intro p _
  by_cases hp : p.1 = k
  · simp [hp]
  · simp [hp]

theorem countSpec_step (l : List String) (x k : String) (o : CountObj)
    (h : ∀ k, getProp o k = countSpec l k) :
    getProp (setProp o x (bump (getProp o x))) k = countSpec (l ++ [x]) k := by
  rw [getProp_setProp, h, h]
  unfold countSpec
  by_cases hkx : k = x
  · subst hkx
    by_cases hin : k ∈ objectPrototypeKeys
    · simp [hin, bump]
    · have hp : k ≠ "__proto__" := by
        intro h; apply hin; rw [h]; decide
      by_cases hc : l.count k = 0
      · simp [hin, hp, hc, bump, List.count_append]
      · simp [hin, hp, hc, bump, List.count_append]
  · have : List.count k [x] = 0 := by
      simp [List.count_cons, List.count_nil]
      exact fun h => hkx h.symm
    simp [hkx, List.count_append, this]

theorem getProp_foldl (xs l : List String) (o : CountObj)
    (h : ∀ k, getProp o k = countSpec l k) (k : String) :
    getProp (xs.foldl (fun o modelId => setProp o modelId (bump (getProp o modelId))) o) k
      = countSpec (l ++ xs) k := by
  induction xs generalizing l o with
  | nil => simpa using h k
  | cons x xs ih =>
    have := ih (l ++ [x]) _ (fun k => countSpec_step l x k o h)
    simpa using this

theorem getProp_countRequests (inProgress : List String) (k : String) :
    getProp (countRequests inProgress) k = countSpec inProgress k := by
  have := getProp_foldl inProgress [] [] (fun k => by
    unfold getProp countSpec
    by_cases hin : k ∈ objectPrototypeKeys <;> simp [hin]) k
  simpa [countRequests] using this

/-! ## Facts about `selectModel` -/

theorem orZero_countSpec (inProgress : List String) (k : String) :
    orZero (countSpec inProgress k)
      = if k ∈ objectPrototypeKeys then CountVal.other
        else CountVal.num (inProgress.count k) := by
  unfold countSpec
  by_cases hin : k ∈ objectPrototypeKeys
  · simp [hin, orZero]
  · by_cases hc : inProgress.count k = 0
    · simp [hin, hc, orZero]
    · simp [hin, hc, orZero]

theorem selectInv_step (inProgress : List String) (l : List Model) (b : Best) (x : Model)
    (h : SelectInv inProgress l b) :
    SelectInv inProgress (l ++ [x]) (selectStep (countRequests inProgress) b x) := by
  unfold selectStep
  rw [getProp_countRequests, orZero_countSpec]
  by_cases hin : x.id ∈ objectPrototypeKeys
  · simp only [hin, if_true]
    rcases h with ⟨hb, hall⟩ | ⟨pre, m, post, hl, hb, hm, hpre, hpost⟩
    · left
      refine ⟨hb, ?_⟩
      intro y hy
      rcases List.mem_append.mp hy with hy | hy
      · exact hall y hy
      · simp at hy; subst hy; exact hin
    · right
      refine ⟨pre, m, post ++ [x], by simp [hl], hb, hm, hpre, ?_⟩
      intro y hy hyk
      rcases List.mem_append.mp hy with hy | hy
      · exact hpost y hy hyk
      · simp at hy; subst hy; exact absurd hin hyk
  · simp only [hin, if_false]
    rcases h with ⟨hb, hall⟩ | ⟨pre, m, post, hl, hb, hm, hpre, hpost⟩
    · right
      subst hb
      refine ⟨l, x, [], by simp, by simp [lessThan], hin, ?_, by simp⟩
      intro y hy hyk
      exact absurd (hall y hy) hyk
    · subst hb
      by_cases hlt : inProgress.count x.id < inProgress.count m.id
      · right
        refine ⟨l, x, [], by simp, by simp [lessThan, hlt], hin, ?_, by simp⟩
        intro y hy hyk
        rw [hl] at hy
        rcases List.mem_append.mp hy with hy | hy
        · exact lt_trans hlt (hpre y hy hyk)
        · rcases List.mem_cons.mp hy with hy | hy
          · subst hy; exact hlt
          · exact lt_of_lt_of_le hlt (hpost y hy hyk)
      · right
        refine ⟨pre, m, post ++ [x], by simp [hl], by simp [lessThan, hlt], hm, hpre, ?_⟩
        intro y hy hyk
        rcases List.mem_append.mp hy with hy | hy
        · exact hpost y hy hyk
        · simp at hy; subst hy; exact Nat.le_of_not_lt hlt

theorem selectInv_foldl (inProgress : List String) (xs l : List Model) (b : Best)
    (h : SelectInv inProgress l b) :
    SelectInv inProgress (l ++ xs) (xs.foldl (selectStep (countRequests inProgress)) b) := by
  induction xs generalizing l b with
  | nil => simpa using h
  | cons x xs ih =>
    have := ih (l ++ [x]) _ (selectInv_step inProgress l b x h)
    simpa using this

theorem selectInv_loop (g : Globals) :
    SelectInv g.inProgressModels g.availableModels
      (g.availableModels.foldl (selectStep (countRequests g.inProgressModels)) ⟨none, none⟩) := by
  have := selectInv_foldl g.inProgressModels g.availableModels [] ⟨none, none⟩
    (Or.inl ⟨rfl, by simp⟩)
  simpa using this

/-- The registry is empty exactly when `selectModel` throws 'No models available'. -/
theorem selectModel_noModels_iff (g : Globals) :
    selectModel g = Except.error JsError.noModelsAvailable ↔ g.availableModels = [] := by
  unfold selectModel
  constructor
  · intro h
    by_cases h0 : g.availableModels.length = 0
    · exact List.length_eq_zero.mp h0
    · rw [if_neg h0] at h
      revert h
      dsimp only
      split <;> intro h <;> cases h
  · intro h
    simp [h]

/-- Least-loaded selection with first-listed tie-break, for a registry that is not
empty and lists no id that is an inherited property name. -/
theorem selectModel_least_loaded (g : Globals) (hne : g.availableModels ≠ [])
    (hk : ∀ x ∈ g.availableModels, x.id ∉ objectPrototypeKeys) :
    ∃ pre m post, g.availableModels = pre ++ m :: post ∧ selectModel g = Except.ok m ∧
      (∀ x ∈ pre, inFlight g m.id < inFlight g x.id) ∧
      (∀ x ∈ post, inFlight g m.id ≤ inFlight g x.id) := by
  have h0 : ¬ g.availableModels.length = 0 := fun h => hne (List.length_eq_zero.mp h)
  rcases selectInv_loop g with ⟨_, hall⟩ | ⟨pre, m, post, hl, hb, _, hpre, hpost⟩
  · obtain ⟨x, hx⟩ := List.exists_mem_of_ne_nil _ hne
    exact absurd (hall x hx) (hk x hx)
  · refine ⟨pre, m, post, hl, ?_, ?_, ?_⟩
    · unfold selectModel
      rw [if_neg h0]
      simp only [hb]
    · intro x hx
      exact hpre x hx (hk x (by rw [hl]; simp [hx]))
    · intro x hx
      exact hpost x hx (hk x (by rw [hl]; simp [hx]))

/-- The two selections worked out in the specification: registry `[A, B, C]` with
counts `{A: 2, B: 0, C: 1}` gives `B`, and with counts `{A: 1, B: 1, C: 1}` gives
`A`. -/
theorem selectModel_examples :
    selectModel ⟨[⟨"A", "loaded"⟩, ⟨"B", "loaded"⟩, ⟨"C", "loaded"⟩], ["A", "C", "A"]⟩
      = Except.ok ⟨"B", "loaded"⟩ ∧
    selectModel ⟨[⟨"A", "loaded"⟩, ⟨"B", "loaded"⟩, ⟨"C", "loaded"⟩], ["C", "B", "A"]⟩
      = Except.ok ⟨"A", "loaded"⟩ := by
  refine ⟨by rfl, by rfl⟩

/-! ## C1: selection -/

/-- C1 (code defect): with the registry `[{id: "constructor"}]` and an empty
tracker, `selectModel` does not return the listed model but throws a `TypeError`:
the read `modelRequestCounts["constructor"]` gives the inherited function, the
comparison with `minRequests` is false, and `selectedModel` stays `null`.  With
the registry `[{id: "a"}, {id: "constructor"}]` and one tracker entry for `a`, it
returns `a` (one entry) although `constructor` has none. -/
theorem selectModel_inherited_name :
    selectModel ⟨[⟨"constructor", "loaded"⟩], []⟩ = Except.error JsError.typeError ∧
    selectModel ⟨[⟨"a", "loaded"⟩, ⟨"constructor", "loaded"⟩], ["a"]⟩
      = Except.ok ⟨"a", "loaded"⟩ ∧
    inFlight ⟨[⟨"a", "loaded"⟩, ⟨"constructor", "loaded"⟩], ["a"]⟩ "constructor"
      < inFlight ⟨[⟨"a", "loaded"⟩, ⟨"constructor", "loaded"⟩], ["a"]⟩ "a" := by
  refine ⟨by rfl, by rfl, by decide⟩

/-! ## C2, C5, C6: the request rewriter -/

theorem selectModel_ok_length (g : Globals) (m : Model) (h : selectModel g = Except.ok m) :
    g.availableModels.length > 0 := by
  unfold selectModel at h
  by_cases h0 : g.availableModels.length = 0
  · rw [if_pos h0] at h; cases h
  · exact Nat.pos_of_ne_zero h0

/-- C2 (as stated, fails): with the registry `[m1]`, on which `selectModel` returns
`m1`, the pre-parsed body `{"model": ""}` contains a model field, yet nothing is
acquired and nothing is stored on the request. -/
theorem modifyRequestBody_falsy_model :
    selectModel ⟨[⟨"m1", "loaded"⟩], []⟩ = Except.ok ⟨"m1", "loaded"⟩ ∧
    (modifyRequestBody demoJson (BodyContent.obj [("model", JVal.str "")]) Req.fresh
        ⟨[⟨"m1", "loaded"⟩], []⟩).g.inProgressModels = [] ∧
    (modifyRequestBody demoJson (BodyContent.obj [("model", JVal.str "")]) Req.fresh
        ⟨[⟨"m1", "loaded"⟩], []⟩).req.selectedModel = none := by
  refine ⟨by rfl, by rfl, by rfl⟩

/-- C2 (amended): let `selectModel` return the model `m` in the state before the
call, and let the body be a pre-parsed object that passes line 148 (no `length`
property equal to 0) or a non-empty string that parses to an object, whose
`model` property is truthy and can be converted to a string, and let
`JSON.stringify` return `out` for the object with `model` set to `m.id` (same
keys in the same order, every other property unchanged).  Then
`modifyRequestBody` returns `out`, the tracker is the previous one with one entry
`m.id` appended, the registry is unchanged, and `selectedModel` of the request is
`m.id`. -/
theorem modifyRequestBody_rewrites (J : JsonLib) (bodyContent : BodyContent)
    (fields : List (String × JVal)) (originalModel : JVal) (srcReq : Req) (g : Globals)
    (m : Model) (out : String)
    (hbody : (bodyContent = BodyContent.obj fields ∧ isFalsyOrEmpty bodyContent = false) ∨
             (∃ s, bodyContent = BodyContent.text s ∧ s ≠ "" ∧
                J.parse s = some (JVal.obj fields)))
    (hmodel : getField fields "model" = some originalModel)
    (htruthy : truthy originalModel = true)
    (hconv : stringConversionThrows originalModel = false)
    (hsel : selectModel g = Except.ok m)
    (hser : J.stringify (JVal.obj (setField fields "model" (JVal.str m.id))) = some out) :
    (modifyRequestBody J bodyContent srcReq g).result = Except.ok (BodyContent.text out) ∧
      getField (setField fields "model" (JVal.str m.id)) "model" = some (JVal.str m.id) ∧
      (∀ k, k ≠ "model" →
        getField (setField fields "model" (JVal.str m.id)) k = getField fields k) ∧
      (setField fields "model" (JVal.str m.id)).map Prod.fst = fields.map Prod.fst ∧
      (modifyRequestBody J bodyContent srcReq g).g.inProgressModels
        = g.inProgressModels ++ [m.id] ∧
      (modifyRequestBody J bodyContent srcReq g).g.availableModels = g.availableModels ∧
      (modifyRequestBody J bodyContent srcReq g).req.selectedModel = some m.id ∧
      (modifyRequestBody J bodyContent srcReq g).req.cleanupDone = srcReq.cleanupDone := by
  have hlen := selectModel_ok_length g m hsel
  have hget : getField (setField fields "model" (JVal.str m.id)) "model"
      = some (JVal.str m.id) := by
    rw [getField_setField]; simp
  have hother : ∀ k, k ≠ "model" →
      getField (setField fields "model" (JVal.str m.id)) k = getField fields k := by
    intro k hk
    rw [getField_setField]; simp [hk]
  have hkeys := setField_keys fields "model" (JVal.str m.id) (by simp [hmodel])
  rcases hbody with ⟨hb, hne⟩ | ⟨t, hb, hne, hparse⟩
  · subst hb
    refine ⟨?_, hget, hother, hkeys, ?_, ?_, ?_, ?_⟩ <;>
      simp [modifyRequestBody, hne, tryBlock, parseBody, replaceModel, hlen, hmodel, htruthy,
        hsel, hconv, writeThrough, serialise, hser]
  · subst hb
    have hne' : isFalsyOrEmpty (BodyContent.text t) = false := by
      simp [isFalsyOrEmpty, hne]
    refine ⟨?_, hget, hother, hkeys, ?_, ?_, ?_, ?_⟩ <;>
      simp [modifyRequestBody, hne', tryBlock, parseBody, hparse, replaceModel, hlen, hmodel,
        htruthy, hsel, hconv, writeThrough, serialise, hser]

/-- Witness of `modifyRequestBody_rewrites`: registry `[m1, m2]`, empty tracker,
body text `{"model":"ignored"}`. -/
theorem modifyRequestBody_rewrites_witness :
    (modifyRequestBody demoJson (BodyContent.text "\x7b\"model\":\"ignored\"\x7d") Req.fresh
        ⟨[⟨"m1", "loaded"⟩, ⟨"m2", "loaded"⟩], []⟩).result
      = Except.ok (BodyContent.text "\x7b\"model\":\"m1\"\x7d") ∧
    (modifyRequestBody demoJson (BodyContent.text "\x7b\"model\":\"ignored\"\x7d") Req.fresh
        ⟨[⟨"m1", "loaded"⟩, ⟨"m2", "loaded"⟩], []⟩).g.inProgressModels = [] ++ ["m1"] :=
  have h := modifyRequestBody_rewrites demoJson
    (BodyContent.text "\x7b\"model\":\"ignored\"\x7d") [("model", JVal.str "ignored")]
    (JVal.str "ignored") Req.fresh ⟨[⟨"m1", "loaded"⟩, ⟨"m2", "loaded"⟩], []⟩ ⟨"m1", "loaded"⟩
    "\x7b\"model\":\"m1\"\x7d"
    (Or.inr ⟨_, rfl, by decide, by rfl⟩) (by rfl) (by rfl) (by rfl) (by rfl) (by rfl)
  ⟨h.1, h.2.2.2.2.1⟩

/-- Pass-through: when the body does not parse, or the parsed body has no own
`model` property, or the registry is empty, the globals and the request are left
as they are, and the value returned is the argument itself when line 148 applies
and otherwise the value of lines 183-187 (the string itself, or the serialisation
of the object that was passed). -/
theorem modifyRequestBody_passThrough (J : JsonLib) (bodyContent : BodyContent) (q : Req)
    (g : Globals)
    (h : (∃ e, parseBody J bodyContent = Except.error e) ∨
         (∃ body, parseBody J bodyContent = Except.ok body ∧ hasModelField body = false) ∨
         g.availableModels = []) :
    (modifyRequestBody J bodyContent q g).g = g ∧
      (modifyRequestBody J bodyContent q g).req = q ∧
      (modifyRequestBody J bodyContent q g).result
        = if isFalsyOrEmpty bodyContent then Except.ok bodyContent
          else passThrough J bodyContent := by
  unfold modifyRequestBody
  by_cases he : isFalsyOrEmpty bodyContent = true
  · simp [he]
  · rw [if_neg he, if_neg he]
    have hfin : ∀ t : Outcome, t.bodyContent = bodyContent → t.g = g → t.req = q →
        (t.result = passThrough J bodyContent ∨ ∃ e, t.result = Except.error e) →
        (match t.result with
          | Except.ok v => (⟨Except.ok v, t.bodyContent, t.req, t.g⟩ : Outcome)
          | Except.error _ => ⟨passThrough J t.bodyContent, t.bodyContent, t.req, t.g⟩).g = g ∧
        (match t.result with
          | Except.ok v => (⟨Except.ok v, t.bodyContent, t.req, t.g⟩ : Outcome)
          | Except.error _ => ⟨passThrough J t.bodyContent, t.bodyContent, t.req, t.g⟩).req = q ∧
        (match t.result with
          | Except.ok v => (⟨Except.ok v, t.bodyContent, t.req, t.g⟩ : Outcome)
          | Except.error _ => ⟨passThrough J t.bodyContent, t.bodyContent, t.req, t.g⟩).result
            = passThrough J bodyContent := by
      intro t hb hg hq hr
      cases hres : t.result with
      | ok v =>
        refine ⟨hg, hq, ?_⟩
        rcases hr with hr | ⟨e, hr⟩
        · rw [← hr, hres]
        · rw [hres] at hr; cases hr
      | error e => exact ⟨hg, hq, by rw [hb]⟩
    have hpass : ∀ body, parseBody J bodyContent = Except.ok body →
        (hasModelField body = false ∨ g.availableModels = []) →
        (replaceModel J bodyContent body q g).bodyContent = bodyContent ∧
        (replaceModel J bodyContent body q g).g = g ∧
        (replaceModel J bodyContent body q g).req = q ∧
        ((replaceModel J bodyContent body q g).result = passThrough J bodyContent ∨
          ∃ e, (replaceModel J bodyContent body q g).result = Except.error e) := by
      intro body _ hcase
      unfold replaceModel
      by_cases hlen : g.availableModels.length > 0
      · rw [if_pos hlen]
        have hm : hasModelField body = false := by
          rcases hcase with hm | hav
          · exact hm
          · rw [hav] at hlen; simp at hlen
        cases body with
        | buffer bytes => exact ⟨rfl, rfl, rfl, Or.inl rfl⟩
        | json v =>
          cases v with
          | null => exact ⟨rfl, rfl, rfl, Or.inr ⟨_, rfl⟩⟩
          | bool b => exact ⟨rfl, rfl, rfl, Or.inl rfl⟩
          | num n => exact ⟨rfl, rfl, rfl, Or.inl rfl⟩
          | str t => exact ⟨rfl, rfl, rfl, Or.inl rfl⟩
          | arr xs => exact ⟨rfl, rfl, rfl, Or.inl rfl⟩
          | obj fields =>
            have hnone : getField fields "model" = none := by
              simpa [hasModelField] using hm
            simp [hnone]
      · rw [if_neg hlen]
        exact ⟨rfl, rfl, rfl, Or.inl rfl⟩
    dsimp only
    cases hp : parseBody J bodyContent with
    | error e =>
      have ht : tryBlock J bodyContent q g = ⟨Except.error e, bodyContent, q, g⟩ := by
        simp [tryBlock, hp]
      rw [ht]
      exact ⟨rfl, rfl, rfl⟩
    | ok body =>
      have ht : tryBlock J bodyContent q g = replaceModel J bodyContent body q g := by
        simp [tryBlock, hp]
      rw [ht]
      have hcase : hasModelField body = false ∨ g.availableModels = [] := by
        rcases h with ⟨e, h⟩ | ⟨b, hb, hm⟩ | h
        · rw [hp] at h; cases h
        · rw [hp] at hb; injection hb with hb; subst hb; exact Or.inl hm
        · exact Or.inr h
      obtain ⟨h1, h2, h3, h4⟩ := hpass body hp hcase
      exact hfin _ h1 h2 h3 h4

/-- C5 (code defect): a `Buffer` body has `typeof` equal to `'object'`, so line
154 takes it as an already parsed object and never parses it.  For every
non-empty buffer, whatever its bytes spell and whatever the registry holds, the
call returns what `JSON.stringify` gives for the `Buffer` object,
`{"type":"Buffer","data":[...]}`, and not the original text; the tracker and the
request are left as they were. -/
theorem modifyRequestBody_buffer (J : JsonLib) (b : Nat) (bytes : List Nat) (srcReq : Req)
    (g : Globals) :
    (modifyRequestBody J (BodyContent.buffer (b :: bytes)) srcReq g).result
      = serialise J
          (JVal.obj [("type", JVal.str "Buffer"),
                     ("data", JVal.arr ((b :: bytes).map (fun x => JVal.num x)))]) ∧
    (∀ out, J.stringify
          (JVal.obj [("type", JVal.str "Buffer"),
                     ("data", JVal.arr ((b :: bytes).map (fun x => JVal.num x)))]) = some out →
      (modifyRequestBody J (BodyContent.buffer (b :: bytes)) srcReq g).result
        = Except.ok (BodyContent.text out)) ∧
    (modifyRequestBody J (BodyContent.buffer (b :: bytes)) srcReq g).g = g ∧
    (modifyRequestBody J (BodyContent.buffer (b :: bytes)) srcReq g).req = srcReq := by
  have hres : (modifyRequestBody J (BodyContent.buffer (b :: bytes)) srcReq g).result
      = serialise J (bufferToJSON (b :: bytes)) ∧
      (modifyRequestBody J (BodyContent.buffer (b :: bytes)) srcReq g).g = g ∧
      (modifyRequestBody J (BodyContent.buffer (b :: bytes)) srcReq g).req = srcReq := by
    have ht : tryBlock J (BodyContent.buffer (b :: bytes)) srcReq g
        = ⟨serialise J (bufferToJSON (b :: bytes)), BodyContent.buffer (b :: bytes),
            srcReq, g⟩ := by
      by_cases hlen : g.availableModels.length > 0 <;>
        simp [tryBlock, parseBody, replaceModel, hlen, passThrough]
    unfold modifyRequestBody
    simp only [isFalsyOrEmpty, List.isEmpty_cons, Bool.false_eq_true, if_false, ht]
    cases hs : serialise J (bufferToJSON (b :: bytes)) with
    | ok v => exact ⟨rfl, rfl, rfl⟩
    | error e => exact ⟨by simp [passThrough, hs], rfl, rfl⟩
  refine ⟨hres.1, ?_, hres.2.1, hres.2.2⟩
  intro out hout
  rw [hres.1]
  simp [serialise, bufferToJSON] at hout ⊢
  rw [hout]

theorem tryBlock_bodyContent_null (J : JsonLib) (bodyContent : BodyContent) (srcReq : Req)
    (g : Globals) (h : (tryBlock J bodyContent srcReq g).bodyContent = BodyContent.null) :
    bodyContent = BodyContent.null := by
  unfold tryBlock at h
  cases bodyContent with
  | null => rfl
  | arr xs =>
    simp only [parseBody, replaceModel] at h
    split at h <;> simp at h
  | obj fields =>
    simp only [parseBody, replaceModel] at h
    repeat' split at h
    all_goals simp [writeThrough] at h
  | text t =>
    cases hp : J.parse t with
    | none => simp [parseBody, hp] at h
    | some v =>
      simp only [parseBody, hp, replaceModel] at h
      repeat' split at h
      all_goals simp [writeThrough] at h
  | buffer bytes =>
    simp only [parseBody, replaceModel] at h
    split at h <;> simp at h

/-- When `JSON.stringify` does not throw, `modifyRequestBody` returns a value:
every exception of the `try` block is caught, and the `catch` block is not
reached with a `null` body. -/
theorem modifyRequestBody_returns_of_total (J : JsonLib) (bodyContent : BodyContent)
    (srcReq : Req) (g : Globals) (htotal : ∀ v, ∃ out, J.stringify v = some out) :
    ∃ v, (modifyRequestBody J bodyContent srcReq g).result = Except.ok v := by
  have hser : ∀ v, ∃ w, serialise J v = Except.ok w := by
    intro v
    obtain ⟨out, hout⟩ := htotal v
    exact ⟨BodyContent.text out, by simp [serialise, hout]⟩
  unfold modifyRequestBody
  by_cases he : isFalsyOrEmpty bodyContent = true
  · exact ⟨bodyContent, by simp [he]⟩
  · rw [if_neg he]
    dsimp only
    cases hr : (tryBlock J bodyContent srcReq g).result with
    | ok v => exact ⟨v, rfl⟩
    | error e =>
      dsimp only
      cases hb : (tryBlock J bodyContent srcReq g).bodyContent with
      | null =>
        have := tryBlock_bodyContent_null J bodyContent srcReq g hb
        subst this
        simp [isFalsyOrEmpty] at he
      | arr xs => exact hser _
      | obj fields => exact hser _
      | text t => exact ⟨_, rfl⟩
      | buffer bytes => exact hser _

/-- C6 (code defect): a pre-parsed, non-empty array body is never replaced, so
line 184 serialises it; when `JSON.stringify` throws on it, the `catch` block
calls `JSON.stringify(bodyContent)` again at line 195, outside any `try`, and the
exception leaves `modifyRequestBody`.  The globals and the request are left as
they were. -/
theorem modifyRequestBody_raises (J : JsonLib) (x : JVal) (xs : List JVal) (srcReq : Req)
    (g : Globals) (hthrow : J.stringify (JVal.arr (x :: xs)) = none) :
    (modifyRequestBody J (BodyContent.arr (x :: xs)) srcReq g).result
        = Except.error JsError.rangeError ∧
      (modifyRequestBody J (BodyContent.arr (x :: xs)) srcReq g).g = g ∧
      (modifyRequestBody J (BodyContent.arr (x :: xs)) srcReq g).req = srcReq := by
  have hs : serialise J (JVal.arr (x :: xs)) = Except.error JsError.rangeError := by
    simp [serialise, hthrow]
  have ht : tryBlock J (BodyContent.arr (x :: xs)) srcReq g
      = ⟨Except.error JsError.rangeError, BodyContent.arr (x :: xs), srcReq, g⟩ := by
    by_cases hlen : g.availableModels.length > 0 <;>
      simp [tryBlock, parseBody, replaceModel, hlen, passThrough, hs]
  unfold modifyRequestBody
  simp [isFalsyOrEmpty, ht, passThrough, hs]

/-- Witness of `modifyRequestBody_raises`: the pre-parsed body `[[[]]]` with a
serialiser that runs out of stack at that depth. -/
theorem modifyRequestBody_raises_witness :
    (modifyRequestBody shallowJson (BodyContent.arr [JVal.arr [JVal.arr []]]) Req.fresh
        ⟨[⟨"m1", "loaded"⟩], []⟩).result = Except.error JsError.rangeError :=
  (modifyRequestBody_raises shallowJson (JVal.arr [JVal.arr []]) [] Req.fresh
    ⟨[⟨"m1", "loaded"⟩], []⟩ rfl).1

/-! ## C9, C10: the registry and the refresh tick -/

/-- C10: whatever the previous snapshot, after `loadModels` on a listing `data`
the registry is `data` filtered to the records whose state is `"loaded"` (a
sub-sequence of `data`, holding exactly its loaded records), and that list is
also returned; when the listing call fails the registry is empty and `[]` is
returned.  The tracker is not touched. -/
theorem loadModels_replaces (g : Globals) (data : List Model) :
    (loadModels (some data) g).1.availableModels
        = data.filter (fun model => model.state == "loaded") ∧
      List.Sublist (loadModels (some data) g).1.availableModels data ∧
      (∀ x, x ∈ (loadModels (some data) g).1.availableModels ↔ x ∈ data ∧ x.state = "loaded") ∧
      (∀ g', (loadModels (some data) g').1.availableModels
          = (loadModels (some data) g).1.availableModels) ∧
      (loadModels (some data) g).2 = (loadModels (some data) g).1.availableModels ∧
      (loadModels none g).1.availableModels = [] ∧
      (loadModels none g).2 = [] ∧
      (loadModels (some data) g).1.inProgressModels = g.inProgressModels ∧
      (loadModels none g).1.inProgressModels = g.inProgressModels := by
  refine ⟨rfl, ?_, ?_, fun _ => rfl, rfl, rfl, rfl, rfl, rfl⟩
  · exact List.filter_sublist data
  · intro x
    simp [loadModels, List.mem_filter]

/-- C9: after a refresh tick the tracker is the previous tracker filtered to the
ids of the new registry (a sub-sequence, in the previous order); a model that is
not in the new registry has in-flight count 0, and a model that is keeps its
count. -/
theorem refreshTick_prunes (response : Option (List Model)) (g : Globals) :
    (refreshTick response g).availableModels = (loadModels response g).1.availableModels ∧
      (refreshTick response g).inProgressModels
        = g.inProgressModels.filter (fun modelId =>
            decide (modelId ∈ (refreshTick response g).availableModels.map (fun m => m.id))) ∧
      List.Sublist (refreshTick response g).inProgressModels g.inProgressModels ∧
      (∀ x, x ∉ (refreshTick response g).availableModels.map (fun m => m.id) →
        inFlight (refreshTick response g) x = 0) ∧
      (∀ x, x ∈ (refreshTick response g).availableModels.map (fun m => m.id) →
        inFlight (refreshTick response g) x = inFlight g x) := by
  have htr : (refreshTick response g).inProgressModels
      = g.inProgressModels.filter (fun modelId =>
          decide (modelId ∈ (refreshTick response g).availableModels.map (fun m => m.id))) := by
    cases response <;> rfl
  refine ⟨rfl, htr, ?_, ?_, ?_⟩
  · rw [htr]; exact List.filter_sublist _
  · intro x hx
    unfold inFlight
    rw [htr, List.count_eq_zero]
    intro hmem
    have := (List.mem_filter.mp hmem).2
    exact hx (by simpa using this)
  · intro x hx
    unfold inFlight
    rw [htr, List.count_filter]
    simpa using hx

/-! ## C4: the cleanup action -/

theorem cleanup_cleanup (req : Req) (g : Globals) :
    cleanup (cleanup req g).1 (cleanup req g).2 = cleanup req g := by
  unfold cleanup
  cases hsel : req.selectedModel with
  | none => simp [hsel]
  | some m =>
    by_cases hc : m ≠ "" ∧ req.cleanupDone = false
    · simp [hsel, hc]
    · simp [hsel, hc]

theorem cleanupTimes_succ (n : Nat) (req : Req) (g : Globals) :
    cleanupTimes (n + 1) req g = cleanup req g := by
  unfold cleanupTimes
  rw [Function.iterate_succ_apply]
  exact Function.iterate_fixed (cleanup_cleanup req g) n

theorem cleanup_sublist (req : Req) (g : Globals) :
    List.Sublist (cleanup req g).2.inProgressModels g.inProgressModels ∧
      g.inProgressModels.length ≤ (cleanup req g).2.inProgressModels.length + 1 ∧
      (cleanup req g).2.availableModels = g.availableModels := by
  cases hsel : req.selectedModel with
  | none =>
    have hc : cleanup req g = (req, g) := by simp [cleanup, hsel]
    simp [hc]
  | some m =>
    by_cases hcond : m ≠ "" ∧ req.cleanupDone = false
    · have hc : cleanup req g
          = ({ req with cleanupDone := true },
             { g with inProgressModels := g.inProgressModels.erase m }) := by
        simp [cleanup, hsel, hcond]
      rw [hc]
      refine ⟨List.erase_sublist m _, ?_, rfl⟩
      show g.inProgressModels.length ≤ (g.inProgressModels.erase m).length + 1
      rw [List.length_erase]
      split <;> omega
    · have hc : cleanup req g = (req, g) := by
        unfold cleanup
        rw [hsel]
        simp only [hcond, if_false]
      simp [hc]

/-- C4 (code defect), at the failing input: a request that was assigned the model
id `""` has an assigned id, and the tracker holds an entry equal to it, yet the
first cleanup invocation removes nothing and does not set the flag, because line
251 tests the id for truthiness; lines 167-170 store and push that id like any
other. -/
theorem cleanup_empty_id :
    cleanup ⟨some "", false⟩ ⟨[⟨"", "loaded"⟩], [""]⟩
      = (⟨some "", false⟩, ⟨[⟨"", "loaded"⟩], [""]⟩) := by
  rfl

/-- C4 (the part of the claim that the code keeps): invoking the cleanup action of
a request `n > 1` times in a row gives the same state as invoking it once, and
cleanup applied twice equals cleanup applied once; at most one tracker entry is
removed in total and the registry is not touched.  For a request that holds a
non-empty id and whose flag is not set, the first invocation removes the first
entry equal to that id (nothing if there is no such entry); for a request that
holds no id, or whose flag is set, the invocation changes nothing. -/
theorem cleanup_at_most_once (n : Nat) (req : Req) (g : Globals) (hn : 1 < n) :
    cleanupTimes n req g = cleanup req g ∧
      cleanup (cleanup req g).1 (cleanup req g).2 = cleanup req g ∧
      List.Sublist (cleanupTimes n req g).2.inProgressModels g.inProgressModels ∧
      g.inProgressModels.length ≤ (cleanupTimes n req g).2.inProgressModels.length + 1 ∧
      (cleanupTimes n req g).2.availableModels = g.availableModels ∧
      (∀ m, req.selectedModel = some m → m ≠ "" → req.cleanupDone = false →
        (cleanup req g).1 = ⟨some m, true⟩ ∧
        (cleanup req g).2.inProgressModels = g.inProgressModels.erase m ∧
        (m ∉ g.inProgressModels → (cleanup req g).2.inProgressModels = g.inProgressModels) ∧
        (∀ pre post, g.inProgressModels = pre ++ m :: post → m ∉ pre →
          (cleanup req g).2.inProgressModels = pre ++ post)) ∧
      ((req.selectedModel = none ∨ req.cleanupDone = true) →
        cleanup req g = (req, g)) := by
  obtain ⟨k, rfl⟩ : ∃ k, n = k + 1 := ⟨n - 1, by omega⟩
  have hs := cleanup_sublist req g
  rw [cleanupTimes_succ]
  refine ⟨rfl, cleanup_cleanup req g, hs.1, hs.2.1, hs.2.2, ?_, ?_⟩
  · intro m hm hne hdone
    have hc : cleanup req g
        = (⟨some m, true⟩, { g with inProgressModels := g.inProgressModels.erase m }) := by
      unfold cleanup
      simp [hm, hne, hdone]
    rw [hc]
    refine ⟨rfl, rfl, ?_, ?_⟩
    · intro hnot
      exact List.erase_of_not_mem hnot
    · intro pre post hsplit hpre
      show g.inProgressModels.erase m = pre ++ post
      rw [hsplit, List.erase_append_right _ hpre, List.erase_cons_head]
  · intro h
    unfold cleanup
    rcases h with h | h
    · simp [h]
    · cases hsel : req.selectedModel with
      | none => rfl
      | some m => simp [h]

/-- Witness of `cleanup_at_most_once`: three invocations for a request that holds
`m1`, on the tracker `[m2, m1, m1]`. -/
theorem cleanup_at_most_once_witness :
    cleanupTimes 3 ⟨some "m1", false⟩ ⟨[], ["m2", "m1", "m1"]⟩
      = cleanup ⟨some "m1", false⟩ ⟨[], ["m2", "m1", "m1"]⟩ :=
  (cleanup_at_most_once 3 ⟨some "m1", false⟩ ⟨[], ["m2", "m1", "m1"]⟩ (by decide)).1

/-! ## The effect of one turn on the shared state -/

theorem selectModel_ok_mem (g : Globals) (m : Model) (h : selectModel g = Except.ok m) :
    m ∈ g.availableModels := by
  unfold selectModel at h
  by_cases h0 : g.availableModels.length = 0
  · rw [if_pos h0] at h; cases h
  · rw [if_neg h0] at h
    rcases selectInv_loop g with ⟨hb, _⟩ | ⟨pre, x, post, hl, hb, _, _, _⟩
    · simp [hb] at h
    · simp only [hb] at h
      injection h with h
      subst h
      rw [hl]; simp

theorem replaceModel_effect (J : JsonLib) (bodyContent : BodyContent) (body : BodyVal)
    (q : Req) (g : Globals) :
    ((replaceModel J bodyContent body q g).g = g ∧
        (replaceModel J bodyContent body q g).req = q) ∨
      (∃ m, selectModel g = Except.ok m ∧
        (replaceModel J bodyContent body q g).g
          = { g with inProgressModels := g.inProgressModels ++ [m.id] } ∧
        (replaceModel J bodyContent body q g).req = { q with selectedModel := some m.id }) := by
  unfold replaceModel
  by_cases hlen : g.availableModels.length > 0
  · rw [if_pos hlen]
    cases body with
    | buffer bytes => left; exact ⟨rfl, rfl⟩
    | json v =>
      cases v with
      | null => left; exact ⟨rfl, rfl⟩
      | bool b => left; exact ⟨rfl, rfl⟩
      | num n => left; exact ⟨rfl, rfl⟩
      | str t => left; exact ⟨rfl, rfl⟩
      | arr xs => left; exact ⟨rfl, rfl⟩
      | obj fields =>
        dsimp only
        cases hm : getField fields "model" with
        | none => left; exact ⟨rfl, rfl⟩
        | some originalModel =>
          dsimp only
          by_cases ht : truthy originalModel = true
          · rw [if_pos ht]
            cases hs : selectModel g with
            | error e => left; exact ⟨rfl, rfl⟩
            | ok m =>
              right
              refine ⟨m, rfl, ?_, ?_⟩
              · dsimp only
                split <;> rfl
              · dsimp only
                split <;> rfl
          · rw [if_neg ht]
            left; exact ⟨rfl, rfl⟩
  · rw [if_neg hlen]
    left; exact ⟨rfl, rfl⟩

/-- A call of `modifyRequestBody` either leaves the globals and the request as
they are, or appends the id that `selectModel` returns to the tracker and stores
it on the request. -/
theorem modifyRequestBody_effect (J : JsonLib) (bodyContent : BodyContent) (q : Req)
    (g : Globals) :
    ((modifyRequestBody J bodyContent q g).g = g ∧
        (modifyRequestBody J bodyContent q g).req = q) ∨
      (∃ m, selectModel g = Except.ok m ∧
        (modifyRequestBody J bodyContent q g).g
          = { g with inProgressModels := g.inProgressModels ++ [m.id] } ∧
        (modifyRequestBody J bodyContent q g).req = { q with selectedModel := some m.id }) := by
  have hmod : (modifyRequestBody J bodyContent q g).g = g ∧
        (modifyRequestBody J bodyContent q g).req = q ∨
      (modifyRequestBody J bodyContent q g).g = (tryBlock J bodyContent q g).g ∧
        (modifyRequestBody J bodyContent q g).req = (tryBlock J bodyContent q g).req := by
    unfold modifyRequestBody
    by_cases he : isFalsyOrEmpty bodyContent = true
    · left; rw [if_pos he]; exact ⟨rfl, rfl⟩
    · right
      rw [if_neg he]
      dsimp only
      split <;> exact ⟨rfl, rfl⟩
  rcases hmod with h | ⟨hg, hq⟩
  · left; exact h
  · rw [hg, hq]
    unfold tryBlock
    cases hp : parseBody J bodyContent with
    | error e => left; exact ⟨rfl, rfl⟩
    | ok body => exact replaceModel_effect J bodyContent body q g

/-- A cleanup invocation either changes nothing, or it finds a non-empty id on a
request whose flag is not set, sets the flag and erases the first entry equal to
the id. -/
theorem cleanup_effect (q : Req) (g : Globals) :
    cleanup q g = (q, g) ∨
      (∃ m, q = ⟨some m, false⟩ ∧ m ≠ "" ∧
        cleanup q g
          = (⟨some m, true⟩, { g with inProgressModels := g.inProgressModels.erase m })) := by
  unfold cleanup
  cases hsel : q.selectedModel with
  | none => left; rfl
  | some m =>
    by_cases hc : m ≠ "" ∧ q.cleanupDone = false
    · right
      refine ⟨m, ?_, hc.1, ?_⟩
      · cases q; simp_all
      · simp [hc]
    · left
      simp only [hc, if_false]

theorem run_snoc (J : JsonLib) (s : Sys) (es : List Event) (e : Event) :
    run J s (es ++ [e]) = step J (run J s es) e := by
  simp [run, List.foldl_append]

theorem rewritten_append (es es' : List Event) :
    rewritten (es ++ es') = rewritten es ++ rewritten es' := by
  induction es with
  | nil => rfl
  | cons e es ih =>
    cases e <;> simp [rewritten, ih]

theorem countP_setReq_not_mem (p : Req → Bool) (reqs : Nat → Req) (r : Nat) (q : Req)
    (rs : List Nat) (h : r ∉ rs) :
    rs.countP (fun i => p (setReq reqs r q i)) = rs.countP (fun i => p (reqs i)) := by
  apply List.countP_congr
  intro i hi
  have : i ≠ r := fun hir => h (hir ▸ hi)
  simp [setReq, this]

theorem countP_setReq_mem (p : Req → Bool) (reqs : Nat → Req) (r : Nat) (q : Req)
    (rs : List Nat) (hnd : rs.Nodup) (h : r ∈ rs) :
    rs.countP (fun i => p (setReq reqs r q i)) + (if p (reqs r) then 1 else 0)
      = rs.countP (fun i => p (reqs i)) + (if p q then 1 else 0) := by
  induction rs with
  | nil => cases h
  | cons a rs ih =>
    have hnd' := List.nodup_cons.mp hnd
    by_cases har : a = r
    · subst har
      have hrest := countP_setReq_not_mem p reqs a q rs hnd'.1
      rw [List.countP_cons, List.countP_cons, hrest]
      simp only [setReq, if_true]
      by_cases h1 : p q = true <;> by_cases h2 : p (reqs a) = true <;> simp [h1, h2]
    · have hr : r ∈ rs := by
        rcases List.mem_cons.mp h with h | h
        · exact absurd h.symm har
        · exact h
      have ih' := ih hnd'.2 hr
      have ha : setReq reqs r q a = reqs a := by simp [setReq, har]
      rw [List.countP_cons, List.countP_cons, ha]
      omega

theorem step_rewrite_delta (J : JsonLib) (s : Sys) (r : Nat) (bodyContent : BodyContent)
    (hr : s.reqs r = Req.fresh) :
    ∃ d : Option String,
      (step J s (Event.rewrite r bodyContent)).g.inProgressModels
        = s.g.inProgressModels ++ d.toList ∧
      (step J s (Event.rewrite r bodyContent)).g.availableModels = s.g.availableModels ∧
      (step J s (Event.rewrite r bodyContent)).reqs = setReq s.reqs r ⟨d, false⟩ ∧
      (∀ id, d = some id → id ∈ s.g.availableModels.map (fun m => m.id)) := by
  rcases modifyRequestBody_effect J bodyContent (s.reqs r) s.g with ⟨hg, hq⟩ | ⟨m, hsel, hg, hq⟩
  · refine ⟨none, ?_, ?_, ?_, ?_⟩
    · simp [step, hg]
    · simp [step, hg]
    · simp only [step]; rw [hq, hr]; rfl
    · intro id hid; cases hid
  · refine ⟨some m.id, ?_, ?_, ?_, ?_⟩
    · simp [step, hg]
    · simp [step, hg]
    · simp only [step]; rw [hq, hr]; rfl
    · intro id hid
      injection hid with hid
      subst hid
      exact List.mem_map.mpr ⟨m, selectModel_ok_mem s.g m hsel, rfl⟩

theorem step_cleanup_delta (J : JsonLib) (s : Sys) (r : Nat) :
    ((step J s (Event.cleanup r)).g = s.g ∧ (step J s (Event.cleanup r)).reqs = s.reqs) ∨
      (∃ m, s.reqs r = ⟨some m, false⟩ ∧ m ≠ "" ∧
        (step J s (Event.cleanup r)).g
          = { s.g with inProgressModels := s.g.inProgressModels.erase m } ∧
        (step J s (Event.cleanup r)).reqs = setReq s.reqs r ⟨some m, true⟩) := by
  rcases cleanup_effect (s.reqs r) s.g with h | ⟨m, hq, hne, h⟩
  · left
    refine ⟨by simp [step, h], ?_⟩
    funext i
    by_cases hi : i = r
    · simp [step, h, setReq, hi]
    · simp [step, setReq, hi]
  · right
    exact ⟨m, hq, hne, by simp [step, h], by simp [step, h]⟩

theorem count_append_toList (l : List String) (d : Option String) (m : String) :
    (l ++ d.toList).count m = l.count m + (if d = some m then 1 else 0) := by
  cases d with
  | none => simp
  | some id =>
    by_cases h : id = m
    · simp [h, List.count_append]
    · have h' : ¬ m = id := fun e => h e.symm
      simp [h, List.count_append, List.count_cons, h']

theorem count_erase_eq (l : List String) (id m : String) :
    (l.erase id).count m + (if m = id ∧ id ∈ l then 1 else 0) = l.count m := by
  by_cases h : m = id
  · subst h
    by_cases hin : m ∈ l
    · have hpos : 0 < l.count m := List.count_pos_iff.mpr hin
      rw [List.count_erase_self]
      simp only [hin, and_self, if_true]
      omega
    · rw [List.erase_of_not_mem hin]
      simp [hin]
  · rw [List.count_erase_of_ne h]
    simp [h]

theorem unreleasedCount_rewrite (s : Sys) (g' : Globals) (r : Nat) (d : Option String)
    (rs : List Nat) (hr : r ∉ rs) (m : String) :
    unreleasedCount ⟨g', setReq s.reqs r ⟨d, false⟩⟩ (rs ++ [r]) m
      = unreleasedCount s rs m + (if d = some m then 1 else 0) := by
  unfold unreleasedCount
  rw [List.countP_append]
  have h1 := countP_setReq_not_mem (fun q => unreleased q m) s.reqs r ⟨d, false⟩ rs hr
  simp only at h1
  rw [h1]
  congr 1
  by_cases hd : d = some m
  · simp [List.countP_cons, setReq, unreleased, hd]
  · simp [List.countP_cons, setReq, unreleased, hd]

theorem unreleasedCount_cleanup (s : Sys) (g' : Globals) (r : Nat) (id : String)
    (rs : List Nat) (hnd : rs.Nodup) (hr : r ∈ rs) (hq : s.reqs r = ⟨some id, false⟩)
    (m : String) :
    unreleasedCount ⟨g', setReq s.reqs r ⟨some id, true⟩⟩ rs m + (if m = id then 1 else 0)
      = unreleasedCount s rs m := by
  unfold unreleasedCount
  have h := countP_setReq_mem (fun q => unreleased q m) s.reqs r ⟨some id, true⟩ rs hnd hr
  rw [hq] at h
  have e1 : unreleased ⟨some id, true⟩ m = false := by simp [unreleased]
  beta_reduce at h
  rw [e1] at h
  by_cases hm : m = id
  · subst hm
    have e2 : unreleased ⟨some m, false⟩ m = true := by simp [unreleased]
    rw [e2] at h
    simp only [if_true] at h ⊢
    simpa using h
  · have e2 : unreleased ⟨some id, false⟩ m = false := by
      have hm' : ¬ id = m := fun e => hm e.symm
      simp [unreleased, hm']
    rw [e2] at h
    simp only [hm, if_false] at h ⊢
    simpa using h

/-! ## The accounting invariant along a trace -/

theorem unreleasedCount_congr (s s' : Sys) (rs : List Nat) (m : String) (h : s'.reqs = s.reqs) :
    unreleasedCount s' rs m = unreleasedCount s rs m := by
  unfold unreleasedCount
  rw [h]

theorem noPrune_init (J : JsonLib) (s : Sys) (es : List Event) (e : Event)
    (h : NoPrune J s (es ++ [e])) : NoPrune J s es := by
  intro pre response post hes
  exact h pre response (post ++ [e]) (by simp [hes])

theorem noPrune_last (J : JsonLib) (s : Sys) (es : List Event) (response : Option (List Model))
    (h : NoPrune J s (es ++ [Event.refresh response])) :
    (refreshTick response (run J s es).g).inProgressModels
      = (run J s es).g.inProgressModels :=
  h es response [] (by simp)

theorem refreshTick_count_le (response : Option (List Model)) (g : Globals) (m : String) :
    inFlight (refreshTick response g) m ≤ inFlight g m := by
  have h : (refreshTick response g).inProgressModels
      = g.inProgressModels.filter (fun modelId =>
          decide (modelId ∈ (refreshTick response g).availableModels.map (fun m => m.id))) := by
    cases response <;> rfl
  unfold inFlight
  rw [h]
  exact List.Sublist.count_le (List.filter_sublist _) m

/-- Along every trace that rewrites each request at most once, started with an
empty tracker: requests that were not rewritten are untouched, the tracker holds
at most as many entries for a model as there are requests that hold it with the
flag `cleanupDone` not set, and exactly as many as long as no refresh tick has
pruned an entry. -/
theorem accounting (J : JsonLib) (registry : List Model) (es : List Event)
    (hnd : (rewritten es).Nodup) :
    (∀ r, r ∉ rewritten es → (run J (Sys.start registry) es).reqs r = Req.fresh) ∧
      (∀ m, inFlight (run J (Sys.start registry) es).g m
          ≤ unreleasedCount (run J (Sys.start registry) es) (rewritten es) m) ∧
      (NoPrune J (Sys.start registry) es →
        ∀ m, inFlight (run J (Sys.start registry) es).g m
          = unreleasedCount (run J (Sys.start registry) es) (rewritten es) m) := by
  induction es using List.reverseRecOn with
  | nil =>
    refine ⟨fun _ _ => rfl, fun m => ?_, fun _ m => ?_⟩ <;>
      simp [run, Sys.start, inFlight, unreleasedCount, rewritten]
  | append_singleton es e ih =>
    rw [rewritten_append] at hnd
    have hnd' : (rewritten es).Nodup := (List.nodup_append.mp hnd).1
    obtain ⟨hfresh, hle, heq⟩ := ih hnd'
    rw [run_snoc, rewritten_append]
    cases e with
    | rewrite r b =>
      have hr : r ∉ rewritten es := by
        intro hin
        have := (List.nodup_append.mp hnd).2.2
        exact this hin (by simp [rewritten])
      obtain ⟨d, htr, _, hreqs, _⟩ :=
        step_rewrite_delta J (run J (Sys.start registry) es) r b (hfresh r hr)
      have hlive : ∀ m, unreleasedCount (step J (run J (Sys.start registry) es) (Event.rewrite r b))
            (rewritten es ++ [r]) m
          = unreleasedCount (run J (Sys.start registry) es) (rewritten es) m
            + (if d = some m then 1 else 0) := by
        intro m
        rw [← unreleasedCount_rewrite (run J (Sys.start registry) es)
          (step J (run J (Sys.start registry) es) (Event.rewrite r b)).g r d (rewritten es) hr m]
        exact unreleasedCount_congr _ _ _ _ hreqs
      have hfl : ∀ m, inFlight (step J (run J (Sys.start registry) es) (Event.rewrite r b)).g m
          = inFlight (run J (Sys.start registry) es).g m + (if d = some m then 1 else 0) := by
        intro m
        unfold inFlight
        rw [htr, count_append_toList]
      have hrw : rewritten [Event.rewrite r b] = [r] := rfl
      rw [hrw]
      refine ⟨?_, ?_, ?_⟩
      · intro r' hr'
        have h1 : r' ∉ rewritten es := fun h => hr' (List.mem_append_left _ h)
        have h2 : r' ≠ r := fun h => hr' (by simp [h])
        rw [hreqs]
        simp only [setReq, h2, if_false]
        exact hfresh r' h1
      · intro m
        rw [hlive, hfl]
        exact Nat.add_le_add_right (hle m) _
      · intro hnp m
        rw [hlive, hfl, heq (noPrune_init _ _ _ _ hnp) m]
    | cleanup r =>
      have hrw : rewritten [Event.cleanup r] = [] := rfl
      rw [hrw, List.append_nil]
      rcases step_cleanup_delta J (run J (Sys.start registry) es) r with
        ⟨hg, hreqs⟩ | ⟨id, hq, _, hg, hreqs⟩
      · refine ⟨?_, ?_, ?_⟩
        · intro r' hr'
          rw [hreqs]; exact hfresh r' hr'
        · intro m
          rw [unreleasedCount_congr _ _ _ _ hreqs, hg]; exact hle m
        · intro hnp m
          rw [unreleasedCount_congr _ _ _ _ hreqs, hg]
          exact heq (noPrune_init _ _ _ _ hnp) m
      · have hr : r ∈ rewritten es := by
          by_contra hnot
          have := hfresh r hnot
          rw [hq] at this
          cases this
        have hlive : ∀ m, unreleasedCount (step J (run J (Sys.start registry) es) (Event.cleanup r))
              (rewritten es) m + (if m = id then 1 else 0)
            = unreleasedCount (run J (Sys.start registry) es) (rewritten es) m := by
          intro m
          rw [← unreleasedCount_cleanup (run J (Sys.start registry) es)
            (step J (run J (Sys.start registry) es) (Event.cleanup r)).g r id (rewritten es)
            hnd' hr hq m]
          congr 1
          exact unreleasedCount_congr _ _ _ _ hreqs
        have hfl : ∀ m, inFlight (step J (run J (Sys.start registry) es) (Event.cleanup r)).g m
              + (if m = id ∧ id ∈ (run J (Sys.start registry) es).g.inProgressModels
                  then 1 else 0)
            = inFlight (run J (Sys.start registry) es).g m := by
          intro m
          unfold inFlight
          rw [hg]
          exact count_erase_eq _ id m
        refine ⟨?_, ?_, ?_⟩
        · intro r' hr'
          have h2 : r' ≠ r := fun h => hr' (h ▸ hr)
          rw [hreqs]
          simp only [setReq, h2, if_false]
          exact hfresh r' hr'
        · intro m
          have h1 := hlive m
          have h2 := hfl m
          have h3 := hle m
          by_cases hm : m = id
          · by_cases hin : id ∈ (run J (Sys.start registry) es).g.inProgressModels
            · simp only [hm, hin, and_self, if_true] at h1 h2 h3 ⊢
              omega
            · have h0 : inFlight (run J (Sys.start registry) es).g id = 0 :=
                List.count_eq_zero.mpr hin
              simp only [hm, hin, and_false, if_false, if_true] at h1 h2 h3 ⊢
              omega
          · simp only [hm, false_and, if_false] at h1 h2
            omega
        · intro hnp m
          have h1 := hlive m
          have h2 := hfl m
          have h3 := heq (noPrune_init _ _ _ _ hnp) m
          by_cases hm : m = id
          · have hpos : 0 < inFlight (run J (Sys.start registry) es).g id := by
              have h4 := heq (noPrune_init _ _ _ _ hnp) id
              have h5 := hlive id
              simp only [if_true] at h5
              omega
            have hin : id ∈ (run J (Sys.start registry) es).g.inProgressModels :=
              List.count_pos_iff.mp hpos
            simp only [hm, hin, and_self, if_true] at h1 h2 h3 ⊢
            omega
          · simp only [hm, false_and, if_false] at h1 h2
            omega
    | refresh response =>
      have hrw : rewritten [Event.refresh response] = [] := rfl
      rw [hrw, List.append_nil]
      have hreqs : (step J (run J (Sys.start registry) es) (Event.refresh response)).reqs
          = (run J (Sys.start registry) es).reqs := rfl
      have hg : (step J (run J (Sys.start registry) es) (Event.refresh response)).g
          = refreshTick response (run J (Sys.start registry) es).g := rfl
      refine ⟨?_, ?_, ?_⟩
      · intro r' hr'
        rw [hreqs]; exact hfresh r' hr'
      · intro m
        rw [unreleasedCount_congr _ _ _ _ hreqs, hg]
        exact le_trans (refreshTick_count_le response _ m) (hle m)
      · intro hnp m
        rw [unreleasedCount_congr _ _ _ _ hreqs, hg]
        have hkeep := noPrune_last _ _ _ _ hnp
        have : inFlight (refreshTick response (run J (Sys.start registry) es).g) m
            = inFlight (run J (Sys.start registry) es).g m := by
          unfold inFlight; rw [hkeep]
        rw [this]
        exact heq (noPrune_init _ _ _ _ hnp) m

/-! ## C3: acquires and releases along a trace without refresh ticks -/

theorem invokedAfter_not_mem (r : Nat) (es : List Event) (h : r ∉ rewritten es) :
    invokedAfter r es = false := by
  induction es with
  | nil => rfl
  | cons e es ih =>
    cases e with
    | rewrite r' b =>
      have h1 : r' ≠ r := fun e => h (by simp [rewritten, e])
      have h2 : r ∉ rewritten es := fun e => h (by simp [rewritten, e])
      simp [invokedAfter, h1, ih h2]
    | cleanup r' => exact ih h
    | refresh response => exact ih h

theorem invokedAfter_snoc (r : Nat) (es : List Event) (e : Event) :
    invokedAfter r (es ++ [e])
      = (invokedAfter r es || (isCleanupOf r e && decide (r ∈ rewritten es))) := by
  induction es with
  | nil =>
    cases e with
    | rewrite r' b =>
      by_cases h : r' = r <;> simp [invokedAfter, isCleanupOf, rewritten, h]
    | cleanup r' => simp [invokedAfter, rewritten]
    | refresh response => simp [invokedAfter, rewritten, isCleanupOf]
  | cons a es ih =>
    cases a with
    | rewrite r' b =>
      by_cases h : r' = r
      · simp [invokedAfter, rewritten, h]
      · have h' : ¬ r = r' := fun e => h e.symm
        simp [invokedAfter, rewritten, h, h', ih]
    | cleanup r' => simpa [invokedAfter, rewritten] using ih
    | refresh response => simpa [invokedAfter, rewritten] using ih

/-- Without refresh ticks the registry stays the one the process started with,
and every id held by a request is the id of a listed model. -/
theorem held_in_registry (J : JsonLib) (registry : List Model) (es : List Event)
    (hnd : (rewritten es).Nodup) (hnr : ∀ e ∈ es, isRefresh e = false) :
    (run J (Sys.start registry) es).g.availableModels = registry ∧
      ∀ r id, ((run J (Sys.start registry) es).reqs r).selectedModel = some id →
        id ∈ registry.map (fun m => m.id) := by
  induction es using List.reverseRecOn with
  | nil =>
    refine ⟨rfl, ?_⟩
    intro r id h
    simp [run, Sys.start, Req.fresh] at h
  | append_singleton es e ih =>
    have hnd0 := hnd
    rw [rewritten_append] at hnd
    have hnd' : (rewritten es).Nodup := (List.nodup_append.mp hnd).1
    obtain ⟨hav, hheld⟩ := ih hnd' (fun x hx => hnr x (List.mem_append_left _ hx))
    have hfresh := (accounting J registry es hnd').1
    rw [run_snoc]
    cases e with
    | rewrite r b =>
      have hr : r ∉ rewritten es := by
        intro hin
        exact (List.nodup_append.mp hnd).2.2 hin (by simp [rewritten])
      obtain ⟨d, _, hav', hreqs, hd⟩ :=
        step_rewrite_delta J (run J (Sys.start registry) es) r b (hfresh r hr)
      refine ⟨by rw [hav', hav], ?_⟩
      intro r' id h
      rw [hreqs] at h
      by_cases hrr : r' = r
      · simp [setReq, hrr] at h
        have := hd id h
        rwa [hav] at this
      · simp only [setReq, hrr, if_false] at h
        exact hheld r' id h
    | cleanup r =>
      rcases step_cleanup_delta J (run J (Sys.start registry) es) r with
        ⟨hg, hreqs⟩ | ⟨m, hq, _, hg, hreqs⟩
      · refine ⟨by rw [hg, hav], ?_⟩
        intro r' id h
        rw [hreqs] at h
        exact hheld r' id h
      · refine ⟨by rw [hg]; exact hav, ?_⟩
        intro r' id h
        rw [hreqs] at h
        by_cases hrr : r' = r
        · simp [setReq, hrr] at h
          subst h
          exact hheld r m (by rw [hq])
        · simp only [setReq, hrr, if_false] at h
          exact hheld r' id h
    | refresh response =>
      have := hnr (Event.refresh response) (by simp)
      simp [isRefresh] at this

/-- For a request that holds a non-empty id, the cleanup flag is set exactly when
the trace has invoked its cleanup after the rewrite. -/
theorem flag_iff_invoked (J : JsonLib) (registry : List Model) (es : List Event)
    (hnd : (rewritten es).Nodup) (r : Nat) (id : String)
    (hsel : ((run J (Sys.start registry) es).reqs r).selectedModel = some id)
    (hid : id ≠ "") :
    ((run J (Sys.start registry) es).reqs r).cleanupDone = true ↔ invokedAfter r es = true := by
  induction es using List.reverseRecOn generalizing r id with
  | nil => simp [run, Sys.start, Req.fresh] at hsel
  | append_singleton es e ih =>
    rw [rewritten_append] at hnd
    have hnd' : (rewritten es).Nodup := (List.nodup_append.mp hnd).1
    have hfresh := (accounting J registry es hnd').1
    rw [run_snoc] at hsel ⊢
    rw [invokedAfter_snoc]
    cases e with
    | rewrite r' b =>
      have hr : r' ∉ rewritten es := by
        intro hin
        exact (List.nodup_append.mp hnd).2.2 hin (by simp [rewritten])
      obtain ⟨d, _, _, hreqs, _⟩ :=
        step_rewrite_delta J (run J (Sys.start registry) es) r' b (hfresh r' hr)
      rw [hreqs] at hsel ⊢
      by_cases hrr : r = r'
      · subst hrr
        simp [setReq, isCleanupOf, invokedAfter_not_mem r es hr]
      · simp only [setReq, hrr, if_false] at hsel ⊢
        simpa [isCleanupOf] using ih hnd' r id hsel hid
    | cleanup r' =>
      rcases step_cleanup_delta J (run J (Sys.start registry) es) r' with
        ⟨_, hreqs⟩ | ⟨m, hq, _, _, hreqs⟩
      · rw [hreqs] at hsel ⊢
        have h0 := ih hnd' r id hsel hid
        by_cases hrr : r' = r
        · subst hrr
          have hcl := cleanup_effect ((run J (Sys.start registry) es).reqs r')
            (run J (Sys.start registry) es).g
          have hmem : r' ∈ rewritten es := by
            by_contra hnot
            have := hfresh r' hnot
            rw [this] at hsel
            simp [Req.fresh] at hsel
          by_cases hdone : ((run J (Sys.start registry) es).reqs r').cleanupDone = true
          · simp [hdone, h0.mp hdone]
          · exfalso
            have hstep : (step J (run J (Sys.start registry) es) (Event.cleanup r')).reqs r'
                = ⟨some id, true⟩ := by
              have hdone' : ((run J (Sys.start registry) es).reqs r').cleanupDone = false := by
                simpa using hdone
              simp [step, cleanup, hsel, hid, hdone', setReq]
            rw [hreqs] at hstep
            rw [hstep] at hdone
            exact hdone rfl
        · simpa [isCleanupOf, hrr] using h0
      · rw [hreqs] at hsel ⊢
        by_cases hrr : r = r'
        · subst hrr
          have hmem : r ∈ rewritten es := by
            by_contra hnot
            have := hfresh r hnot
            rw [hq] at this
            cases this
          simp [setReq, isCleanupOf, hmem]
        · have hrr' : ¬ r' = r := fun e => hrr e.symm
          simp only [setReq, hrr, if_false] at hsel ⊢
          simpa [isCleanupOf, hrr'] using ih hnd' r id hsel hid
    | refresh response =>
      have hreqs : (step J (run J (Sys.start registry) es) (Event.refresh response)).reqs
          = (run J (Sys.start registry) es).reqs := rfl
      rw [hreqs] at hsel ⊢
      simpa [isCleanupOf] using ih hnd' r id hsel hid

/-- C3 (code defect), at the failing input: with the registry `[{id: ""}]`,
request 0 is rewritten and assigned `""` (lines 167-170 store and push it), then
its cleanup is invoked.  One request was assigned `""` and its cleanup was invoked
after the assignment, so the claim gives the count 0, but the entry is still in
the tracker: the truthiness test of line 251 takes the empty id for no id. -/
theorem empty_id_never_released :
    inFlight (run demoJson (Sys.start [⟨"", "loaded"⟩])
        [Event.rewrite 0 (BodyContent.obj [("model", JVal.str "x")]), Event.cleanup 0]).g "" = 1 ∧
    assignedCount (run demoJson (Sys.start [⟨"", "loaded"⟩])
        [Event.rewrite 0 (BodyContent.obj [("model", JVal.str "x")]), Event.cleanup 0])
        (rewritten [Event.rewrite 0 (BodyContent.obj [("model", JVal.str "x")]),
          Event.cleanup 0]) "" = 1 ∧
    releasedCount (run demoJson (Sys.start [⟨"", "loaded"⟩])
        [Event.rewrite 0 (BodyContent.obj [("model", JVal.str "x")]), Event.cleanup 0])
        [Event.rewrite 0 (BodyContent.obj [("model", JVal.str "x")]), Event.cleanup 0] "" = 1 := by
  refine ⟨by rfl, by rfl, by rfl⟩

/-- C3 (the claim, where the defect of line 251 does not strike): let the registry
list no model with the empty id, and let a
sequence of rewrites (each request rewritten at most once) and cleanup
invocations, in any order and with no refresh tick, start from an empty tracker.
After every step (after every initial part `pre` of the sequence) the in-flight
count of each model `m` is the number of requests that were assigned `m` minus the
number of those whose cleanup has been invoked at least once after the
assignment; the second number is at most the first, and one more cleanup
invocation for a request whose cleanup has already been invoked after its rewrite
leaves the globals as they are. -/
theorem inFlight_eq_assigned_sub_released (J : JsonLib) (registry : List Model)
    (pre post : List Event) (m : String)
    (hnd : (rewritten (pre ++ post)).Nodup)
    (hnr : ∀ e ∈ pre ++ post, isRefresh e = false)
    (hids : ∀ x ∈ registry, x.id ≠ "") :
    inFlight (run J (Sys.start registry) pre).g m
        = assignedCount (run J (Sys.start registry) pre) (rewritten pre) m
          - releasedCount (run J (Sys.start registry) pre) pre m ∧
      releasedCount (run J (Sys.start registry) pre) pre m
        ≤ assignedCount (run J (Sys.start registry) pre) (rewritten pre) m ∧
      (∀ r, invokedAfter r pre = true →
        (step J (run J (Sys.start registry) pre) (Event.cleanup r)).g
          = (run J (Sys.start registry) pre).g) := by
  rw [rewritten_append] at hnd
  have hnd' : (rewritten pre).Nodup := (List.nodup_append.mp hnd).1
  have hnr' : ∀ e ∈ pre, isRefresh e = false := fun e he => hnr e (List.mem_append_left _ he)
  have hnp : NoPrune J (Sys.start registry) pre := by
    intro p response q h
    have := hnr' (Event.refresh response) (by rw [h]; simp)
    simp [isRefresh] at this
  have heq := (accounting J registry pre hnd').2.2 hnp m
  have hheld := (held_in_registry J registry pre hnd' hnr').2
  have hne : ∀ r id, ((run J (Sys.start registry) pre).reqs r).selectedModel = some id →
      id ≠ "" := by
    intro r id h
    obtain ⟨x, hx, hxid⟩ := List.mem_map.mp (hheld r id h)
    rw [← hxid]
    exact hids x hx
  have hlive : unreleasedCount (run J (Sys.start registry) pre) (rewritten pre) m
      = (rewritten pre).countP (fun r =>
          decide (((run J (Sys.start registry) pre).reqs r).selectedModel = some m)
            && !invokedAfter r pre) := by
    unfold unreleasedCount
    apply List.countP_congr
    intro r _
    by_cases hsel : ((run J (Sys.start registry) pre).reqs r).selectedModel = some m
    · have hiff := flag_iff_invoked J registry pre hnd' r m hsel (hne r m hsel)
      cases hd : ((run J (Sys.start registry) pre).reqs r).cleanupDone <;>
        cases hi : invokedAfter r pre <;> simp [unreleased, hsel, hd, hi] <;> simp_all
    · simp [unreleased, hsel]
  have hsplit : assignedCount (run J (Sys.start registry) pre) (rewritten pre) m
      = releasedCount (run J (Sys.start registry) pre) pre m
        + (rewritten pre).countP (fun r =>
            decide (((run J (Sys.start registry) pre).reqs r).selectedModel = some m)
              && !invokedAfter r pre) := by
    unfold assignedCount releasedCount
    rw [List.countP_eq_countP_filter_add (rewritten pre) _ (fun r => invokedAfter r pre),
      List.countP_filter, List.countP_filter]
  refine ⟨?_, ?_, ?_⟩
  · rw [heq, hlive, hsplit]; omega
  · rw [hsplit]; omega
  · intro r hinv
    rcases step_cleanup_delta J (run J (Sys.start registry) pre) r with
      ⟨hg, _⟩ | ⟨id, hq, hidne, _, _⟩
    · exact hg
    · exfalso
      have hsel : ((run J (Sys.start registry) pre).reqs r).selectedModel = some id := by
        rw [hq]
      have hiff := flag_iff_invoked J registry pre hnd' r id hsel hidne
      have := hiff.mpr hinv
      rw [hq] at this
      cases this

/-- Witness of `inFlight_eq_assigned_sub_released`: two requests on the registry
`[m1, m2]`, with a cleanup before the rewrite, a duplicate cleanup, and a cleanup
for a request that is never rewritten. -/
theorem inFlight_eq_assigned_sub_released_witness :
    inFlight (run demoJson (Sys.start [⟨"m1", "loaded"⟩, ⟨"m2", "loaded"⟩])
        [Event.cleanup 0, Event.rewrite 0 (BodyContent.obj [("model", JVal.str "x")]),
         Event.rewrite 1 (BodyContent.obj [("model", JVal.str "y")]),
         Event.cleanup 0, Event.cleanup 0, Event.cleanup 5]).g "m1"
      = assignedCount (run demoJson (Sys.start [⟨"m1", "loaded"⟩, ⟨"m2", "loaded"⟩])
          [Event.cleanup 0, Event.rewrite 0 (BodyContent.obj [("model", JVal.str "x")]),
           Event.rewrite 1 (BodyContent.obj [("model", JVal.str "y")]),
           Event.cleanup 0, Event.cleanup 0, Event.cleanup 5])
          (rewritten [Event.cleanup 0,
            Event.rewrite 0 (BodyContent.obj [("model", JVal.str "x")]),
            Event.rewrite 1 (BodyContent.obj [("model", JVal.str "y")]),
            Event.cleanup 0, Event.cleanup 0, Event.cleanup 5]) "m1"
        - releasedCount (run demoJson (Sys.start [⟨"m1", "loaded"⟩, ⟨"m2", "loaded"⟩])
          [Event.cleanup 0, Event.rewrite 0 (BodyContent.obj [("model", JVal.str "x")]),
           Event.rewrite 1 (BodyContent.obj [("model", JVal.str "y")]),
           Event.cleanup 0, Event.cleanup 0, Event.cleanup 5])
          [Event.cleanup 0, Event.rewrite 0 (BodyContent.obj [("model", JVal.str "x")]),
           Event.rewrite 1 (BodyContent.obj [("model", JVal.str "y")]),
           Event.cleanup 0, Event.cleanup 0, Event.cleanup 5] "m1" :=
  (inFlight_eq_assigned_sub_released demoJson [⟨"m1", "loaded"⟩, ⟨"m2", "loaded"⟩]
    [Event.cleanup 0, Event.rewrite 0 (BodyContent.obj [("model", JVal.str "x")]),
     Event.rewrite 1 (BodyContent.obj [("model", JVal.str "y")]),
     Event.cleanup 0, Event.cleanup 0, Event.cleanup 5]
    [Event.cleanup 1] "m1" (by simp [rewritten])
    (by
      intro e he
      simp at he
      rcases he with rfl | rfl | rfl | rfl | rfl | rfl | rfl <;> rfl)
    (by
      intro x hx
      simp at hx
      rcases hx with rfl | rfl <;> decide)).1

/-! ## C7, C8: tracker entries and requests in flight -/

theorem noEmptyId_init (registry : List Model) (es : List Event) (e : Event)
    (h : NoEmptyId registry (es ++ [e])) : NoEmptyId registry es :=
  ⟨h.1, fun data hmem => h.2 data (List.mem_append_left _ hmem)⟩

/-- When no registry of the trace lists the empty id, no listed model and no
request holds it. -/
theorem held_nonempty (J : JsonLib) (registry : List Model) (es : List Event)
    (hnd : (rewritten es).Nodup) (hne : NoEmptyId registry es) :
    (∀ x ∈ (run J (Sys.start registry) es).g.availableModels, x.id ≠ "") ∧
      ∀ r id, ((run J (Sys.start registry) es).reqs r).selectedModel = some id → id ≠ "" := by
  induction es using List.reverseRecOn with
  | nil =>
    refine ⟨hne.1, ?_⟩
    intro r id h
    simp [run, Sys.start, Req.fresh] at h
  | append_singleton es e ih =>
    rw [rewritten_append] at hnd
    have hnd' : (rewritten es).Nodup := (List.nodup_append.mp hnd).1
    obtain ⟨hav, hheld⟩ := ih hnd' (noEmptyId_init registry es e hne)
    have hfresh := (accounting J registry es hnd').1
    rw [run_snoc]
    cases e with
    | rewrite r b =>
      have hr : r ∉ rewritten es := by
        intro hin
        exact (List.nodup_append.mp hnd).2.2 hin (by simp [rewritten])
      obtain ⟨d, _, hav', hreqs, hd⟩ :=
        step_rewrite_delta J (run J (Sys.start registry) es) r b (hfresh r hr)
      refine ⟨by rw [hav']; exact hav, ?_⟩
      intro r' id h
      rw [hreqs] at h
      by_cases hrr : r' = r
      · simp [setReq, hrr] at h
        obtain ⟨x, hx, hxid⟩ := List.mem_map.mp (hd id h)
        rw [← hxid]
        exact hav x hx
      · simp only [setReq, hrr, if_false] at h
        exact hheld r' id h
    | cleanup r =>
      rcases step_cleanup_delta J (run J (Sys.start registry) es) r with
        ⟨hg, hreqs⟩ | ⟨m, hq, _, hg, hreqs⟩
      · refine ⟨by rw [hg]; exact hav, ?_⟩
        intro r' id h
        rw [hreqs] at h
        exact hheld r' id h
      · refine ⟨by rw [hg]; exact hav, ?_⟩
        intro r' id h
        rw [hreqs] at h
        by_cases hrr : r' = r
        · simp [setReq, hrr] at h
          subst h
          exact hheld r m (by rw [hq])
        · simp only [setReq, hrr, if_false] at h
          exact hheld r' id h
    | refresh response =>
      refine ⟨?_, hheld⟩
      intro x hx
      cases response with
      | none => simp [step, refreshTick, loadModels] at hx
      | some data =>
        have hx' : x ∈ data.filter (fun model => model.state == "loaded") := hx
        exact hne.2 data (by simp) x (List.mem_filter.mp hx').1

/-- When no request holds the empty id, the flag of a request is not set exactly
when its cleanup has not been invoked since its rewrite. -/
theorem unreleased_eq_inFlightAgainst (J : JsonLib) (registry : List Model)
    (es : List Event) (hnd : (rewritten es).Nodup)
    (hheld : ∀ r id, ((run J (Sys.start registry) es).reqs r).selectedModel = some id →
      id ≠ "")
    (m : String) (r : Nat) :
    unreleased ((run J (Sys.start registry) es).reqs r) m
      = inFlightAgainst (run J (Sys.start registry) es) es m r := by
  unfold unreleased inFlightAgainst
  by_cases hsel : ((run J (Sys.start registry) es).reqs r).selectedModel = some m
  · have hiff := flag_iff_invoked J registry es hnd r m hsel (hheld r m hsel)
    cases hd : ((run J (Sys.start registry) es).reqs r).cleanupDone <;>
      cases hi : invokedAfter r es <;> simp [hsel] <;> simp_all
  · simp [hsel]

theorem unreleasedCount_eq_inFlightRequests (J : JsonLib) (registry : List Model)
    (es : List Event) (hnd : (rewritten es).Nodup) (hne : NoEmptyId registry es)
    (m : String) :
    unreleasedCount (run J (Sys.start registry) es) (rewritten es) m
      = inFlightRequests (run J (Sys.start registry) es) es m := by
  unfold unreleasedCount inFlightRequests
  apply List.countP_congr
  intro r _
  rw [unreleased_eq_inFlightAgainst J registry es hnd (held_nonempty J registry es hnd hne).2 m r]

theorem count_held_awaiting (s : Sys) (es : List Event) (m : String) :
    (((rewritten es).filter (awaitsCleanup s es)).map (fun r => heldModel (s.reqs r))).count m
      = inFlightRequests s es m := by
  unfold inFlightRequests
  rw [List.count_eq_countP, List.countP_map, List.countP_filter]
  apply List.countP_congr
  intro r _
  cases hsel : (s.reqs r).selectedModel with
  | none => simp [awaitsCleanup, heldModel, inFlightAgainst, hsel]
  | some x =>
    by_cases hx : x = m
    · simp [awaitsCleanup, heldModel, inFlightAgainst, hsel, hx]
    · simp [awaitsCleanup, heldModel, inFlightAgainst, hsel, hx]

/-- C8 (code defect), at the failing input: with the registry `[{id: ""}]`,
request 0 is rewritten and assigned `""`, then its cleanup is invoked.  The
tracker still holds the entry, but no request is in flight against `""` any
more: the truthiness test of line 251 takes the empty id for no id. -/
theorem empty_id_entry_without_request :
    inFlight (run demoJson (Sys.start [⟨"", "loaded"⟩])
        [Event.rewrite 0 (BodyContent.obj [("model", JVal.str "x")]), Event.cleanup 0]).g "" = 1 ∧
    inFlightRequests (run demoJson (Sys.start [⟨"", "loaded"⟩])
        [Event.rewrite 0 (BodyContent.obj [("model", JVal.str "x")]), Event.cleanup 0])
        [Event.rewrite 0 (BodyContent.obj [("model", JVal.str "x")]), Event.cleanup 0] "" = 0 := by
  refine ⟨by rfl, by rfl⟩

/-- C8 (the claim, where the defect of line 251 does not strike): let neither the
starting registry nor any listing hold a model with the empty id.  In every state
reached from the start (empty tracker) by rewrites, cleanup invocations and
refresh ticks, each request being rewritten at most once, the tracker entries can
be matched one-to-one with distinct requests that hold the same id and whose
cleanup has not been invoked since their rewrite: the tracker is, up to order, a
sub-list of the ids held by those requests; hence the in-flight count of every
model is at most the number of requests in flight against it. -/
theorem tracker_matches_live (J : JsonLib) (registry : List Model) (es : List Event)
    (hnd : (rewritten es).Nodup) (hne : NoEmptyId registry es) :
    List.Subperm (run J (Sys.start registry) es).g.inProgressModels
        (((rewritten es).filter (awaitsCleanup (run J (Sys.start registry) es) es)).map
          (fun r => heldModel ((run J (Sys.start registry) es).reqs r))) ∧
      ∀ m, inFlight (run J (Sys.start registry) es).g m
        ≤ inFlightRequests (run J (Sys.start registry) es) es m := by
  have hle : ∀ m, inFlight (run J (Sys.start registry) es).g m
      ≤ inFlightRequests (run J (Sys.start registry) es) es m := by
    intro m
    rw [← unreleasedCount_eq_inFlightRequests J registry es hnd hne m]
    exact (accounting J registry es hnd).2.1 m
  refine ⟨?_, hle⟩
  rw [List.subperm_ext_iff]
  intro m _
  rw [count_held_awaiting]
  exact hle m

/-- Witness of `tracker_matches_live`: a rewrite, a refresh tick that prunes, and
a cleanup. -/
theorem tracker_matches_live_witness :
    inFlight (run demoJson (Sys.start [⟨"m1", "loaded"⟩])
          [Event.rewrite 0 (BodyContent.obj [("model", JVal.str "x")]),
           Event.refresh (some []), Event.cleanup 0]).g "m1"
      ≤ inFlightRequests (run demoJson (Sys.start [⟨"m1", "loaded"⟩])
          [Event.rewrite 0 (BodyContent.obj [("model", JVal.str "x")]),
           Event.refresh (some []), Event.cleanup 0])
          [Event.rewrite 0 (BodyContent.obj [("model", JVal.str "x")]),
           Event.refresh (some []), Event.cleanup 0] "m1" :=
  (tracker_matches_live demoJson [⟨"m1", "loaded"⟩]
    [Event.rewrite 0 (BodyContent.obj [("model", JVal.str "x")]),
     Event.refresh (some []), Event.cleanup 0] (by simp [rewritten])
    ⟨by
      intro x hx
      simp at hx
      subst hx
      decide,
     by
      intro data hmem x hx
      simp at hmem
      subst hmem
      simp at hx⟩).2 "m1"

/-- C7 (as stated, fails): with the registry `[m1]`, request 0 is rewritten and
assigned `m1`; a refresh tick whose listing is empty then drops the entry.  The
request is still in flight against `m1` (its cleanup has not been invoked), but
the tracker holds no entry for it. -/
theorem refresh_breaks_equality :
    inFlight (run demoJson (Sys.start [⟨"m1", "loaded"⟩])
        [Event.rewrite 0 (BodyContent.obj [("model", JVal.str "x")]),
         Event.refresh (some [])]).g "m1" = 0 ∧
    inFlightRequests (run demoJson (Sys.start [⟨"m1", "loaded"⟩])
        [Event.rewrite 0 (BodyContent.obj [("model", JVal.str "x")]),
         Event.refresh (some [])])
        [Event.rewrite 0 (BodyContent.obj [("model", JVal.str "x")]),
         Event.refresh (some [])] "m1" = 1 := by
  refine ⟨by rfl, by rfl⟩

/-- C7 (amended): let neither the starting registry nor any listing hold a model
with the empty id.  In every state reached from the start by rewrites (each
request rewritten at most once), cleanup invocations and refresh ticks none of
which prunes a tracker entry, the number of tracker entries for a model equals
the number of requests in flight against it (requests that were assigned the
model and whose cleanup has not been invoked since). -/
theorem tracker_counts_in_flight (J : JsonLib) (registry : List Model) (es : List Event)
    (hnd : (rewritten es).Nodup) (hnp : NoPrune J (Sys.start registry) es)
    (hne : NoEmptyId registry es) (m : String) :
    inFlight (run J (Sys.start registry) es).g m
      = inFlightRequests (run J (Sys.start registry) es) es m := by
  rw [← unreleasedCount_eq_inFlightRequests J registry es hnd hne m]
  exact (accounting J registry es hnd).2.2 hnp m

/-- Witness of `tracker_counts_in_flight`: a rewrite, a refresh tick that keeps
`m1` listed, and a cleanup. -/
theorem tracker_counts_in_flight_witness :
    inFlight (run demoJson (Sys.start [⟨"m1", "loaded"⟩])
        [Event.rewrite 0 (BodyContent.obj [("model", JVal.str "x")]),
         Event.refresh (some [⟨"m1", "loaded"⟩]), Event.cleanup 0]).g "m1"
      = inFlightRequests (run demoJson (Sys.start [⟨"m1", "loaded"⟩])
        [Event.rewrite 0 (BodyContent.obj [("model", JVal.str "x")]),
         Event.refresh (some [⟨"m1", "loaded"⟩]), Event.cleanup 0])
        [Event.rewrite 0 (BodyContent.obj [("model", JVal.str "x")]),
         Event.refresh (some [⟨"m1", "loaded"⟩]), Event.cleanup 0] "m1" :=
  tracker_counts_in_flight demoJson [⟨"m1", "loaded"⟩]
    [Event.rewrite 0 (BodyContent.obj [("model", JVal.str "x")]),
     Event.refresh (some [⟨"m1", "loaded"⟩]), Event.cleanup 0] (by simp [rewritten])
    (by
      intro pre response post h
      rcases pre with _ | ⟨a, _ | ⟨b, _ | ⟨c, pre⟩⟩⟩
      · simp at h
      · simp at h
        obtain ⟨rfl, rfl, _⟩ := h
        rfl
      · simp at h
      · simp at h)
    ⟨by
      intro x hx
      simp at hx
      subst hx
      decide,
     by
      intro data hmem x hx
      simp at hmem
      subst hmem
      simp at hx
      subst hx
      decide⟩ "m1"

/-! ## C12: rewriting against an empty registry -/

/-- C12 (as stated, fails): with an empty registry, the request whose body is the
text `{"model":"ignored"}` is given a body to send, namely that same text; no
exception reaches the caller, although `selectModel` in that state would throw
'No models available'. -/
theorem empty_registry_forwards :
    (proxyReqBodyDecorator demoJson (BodyContent.text "\x7b\"model\":\"ignored\"\x7d")
        Req.fresh ⟨[], []⟩).result
      = Except.ok (BodyContent.text "\x7b\"model\":\"ignored\"\x7d") ∧
    selectModel ⟨[], []⟩ = Except.error JsError.noModelsAvailable := by
  refine ⟨by rfl, by rfl⟩

theorem serialise_ne_noModels (J : JsonLib) (v : JVal) :
    serialise J v ≠ Except.error JsError.noModelsAvailable := by
  unfold serialise
  cases J.stringify v <;> simp

/-- C12 (amended): when the registry is empty at rewrite time, `selectModel` would
throw 'No models available', but line 162 does not call it: for every body and
every request the body decorator yields the body passed without replacement (the
argument itself when line 148 applies, otherwise the string itself or what
`JSON.stringify` gives for the object passed), never a No-Models-Available
failure; a string body is always returned as it is, and whenever `JSON.stringify`
does not throw a body to send is returned.  The globals and the request are left
as they are. -/
theorem proxyReqBodyDecorator_empty_registry (J : JsonLib) (bodyContent : BodyContent)
    (srcReq : Req) (g : Globals) (hempty : g.availableModels = []) :
    selectModel g = Except.error JsError.noModelsAvailable ∧
      (proxyReqBodyDecorator J bodyContent srcReq g).result
        = (if isFalsyOrEmpty bodyContent then Except.ok bodyContent
           else passThrough J bodyContent) ∧
      (proxyReqBodyDecorator J bodyContent srcReq g).result
        ≠ Except.error JsError.noModelsAvailable ∧
      (∀ t, bodyContent = BodyContent.text t →
        (proxyReqBodyDecorator J bodyContent srcReq g).result
          = Except.ok (BodyContent.text t)) ∧
      ((∀ v, ∃ out, J.stringify v = some out) →
        ∃ v, (proxyReqBodyDecorator J bodyContent srcReq g).result = Except.ok v) ∧
      (proxyReqBodyDecorator J bodyContent srcReq g).g = g ∧
      (proxyReqBodyDecorator J bodyContent srcReq g).req = srcReq := by
  obtain ⟨hg, hq, hres⟩ :=
    modifyRequestBody_passThrough J bodyContent srcReq g (Or.inr (Or.inr hempty))
  refine ⟨(selectModel_noModels_iff g).mpr hempty, hres, ?_, ?_, ?_, hg, hq⟩
  · unfold proxyReqBodyDecorator
    rw [hres]
    by_cases he : isFalsyOrEmpty bodyContent = true
    · rw [if_pos he]; simp
    · rw [if_neg he]
      cases bodyContent with
      | null => simp [isFalsyOrEmpty] at he
      | arr xs => exact serialise_ne_noModels J _
      | obj fields => exact serialise_ne_noModels J _
      | text t => simp [passThrough]
      | buffer bytes => exact serialise_ne_noModels J _
  · intro t ht
    unfold proxyReqBodyDecorator
    rw [hres, ht]
    by_cases he : isFalsyOrEmpty (BodyContent.text t) = true
    · rw [if_pos he]
    · rw [if_neg he]; rfl
  · intro htotal
    exact modifyRequestBody_returns_of_total J bodyContent srcReq g htotal

/-- Witness of `proxyReqBodyDecorator_empty_registry`: the pre-parsed body
`{"model": "x"}` against the empty registry. -/
theorem proxyReqBodyDecorator_empty_registry_witness :
    (proxyReqBodyDecorator demoJson (BodyContent.obj [("model", JVal.str "x")])
        Req.fresh ⟨[], ["m1"]⟩).result
      = (if isFalsyOrEmpty (BodyContent.obj [("model", JVal.str "x")])
          then Except.ok (BodyContent.obj [("model", JVal.str "x")])
          else passThrough demoJson (BodyContent.obj [("model", JVal.str "x")])) :=
  (proxyReqBodyDecorator_empty_registry demoJson (BodyContent.obj [("model", JVal.str "x")])
    Req.fresh ⟨[], ["m1"]⟩ rfl).2.1

/-! ## C11: one round of requests over the registry -/

theorem selectStep_floor (inProgress : List String) (b : Best) (x : Model)
    (hx : x.id ∈ inProgress)
    (hb : b.minRequests = none ∨ ∃ c, b.minRequests = some c ∧ 1 ≤ c) :
    (selectStep (countRequests inProgress) b x).minRequests = none ∨
      ∃ c, (selectStep (countRequests inProgress) b x).minRequests = some c ∧ 1 ≤ c := by
  unfold selectStep
  rw [getProp_countRequests, orZero_countSpec]
  by_cases hin : x.id ∈ objectPrototypeKeys
  · simp only [hin, if_true]
    exact hb
  · simp only [hin, if_false]
    split
    · right
      exact ⟨_, rfl, List.count_pos_iff.mpr hx⟩
    · exact hb

theorem foldl_selectStep_floor (inProgress : List String) (xs : List Model) (b : Best)
    (hxs : ∀ x ∈ xs, x.id ∈ inProgress)
    (hb : b.minRequests = none ∨ ∃ c, b.minRequests = some c ∧ 1 ≤ c) :
    (xs.foldl (selectStep (countRequests inProgress)) b).minRequests = none ∨
      ∃ c, (xs.foldl (selectStep (countRequests inProgress)) b).minRequests = some c
        ∧ 1 ≤ c := by
  induction xs generalizing b with
  | nil => exact hb
  | cons x xs ih =>
    rw [List.foldl_cons]
    exact ih _ (fun y hy => hxs y (List.mem_cons_of_mem _ hy))
      (selectStep_floor inProgress b x (hxs x (List.mem_cons_self _ _)) hb)

theorem foldl_selectStep_zero (counts : CountObj) (xs : List Model) (m : Model) :
    xs.foldl (selectStep counts) ⟨some m, some 0⟩ = ⟨some m, some 0⟩ := by
  induction xs with
  | nil => rfl
  | cons x xs ih =>
    rw [List.foldl_cons]
    have : selectStep counts ⟨some m, some 0⟩ x = ⟨some m, some 0⟩ := by
      unfold selectStep
      split
      · simp [lessThan]
      · rfl
    rw [this, ih]

theorem selectStep_take (inProgress : List String) (b : Best) (m : Model)
    (hm : m.id ∉ objectPrototypeKeys) (hcount : inProgress.count m.id = 0)
    (hb : b.minRequests = none ∨ ∃ c, b.minRequests = some c ∧ 1 ≤ c) :
    selectStep (countRequests inProgress) b m = ⟨some m, some 0⟩ := by
  unfold selectStep
  rw [getProp_countRequests, orZero_countSpec]
  simp only [hm, if_false, hcount]
  rcases hb with h | ⟨c, h, hc⟩
  · simp [lessThan, h]
  · have : 0 < c := hc
    simp [lessThan, h, this]

/-- When the tracker holds exactly the ids of the models listed before `m`, the
ids of the registry are pairwise distinct, and the id of `m` is not an inherited
name, `selectModel` returns `m`. -/
theorem selectModel_next (g : Globals) (A B : List Model) (m : Model)
    (hav : g.availableModels = A ++ m :: B)
    (htr : g.inProgressModels = A.map (fun x => x.id))
    (hnd : ((A ++ m :: B).map (fun x => x.id)).Nodup)
    (hm : m.id ∉ objectPrototypeKeys) :
    selectModel g = Except.ok m := by
  have hcount : g.inProgressModels.count m.id = 0 := by
    rw [htr, List.count_eq_zero]
    intro hmem
    rw [List.map_append, List.map_cons] at hnd
    have := (List.nodup_append.mp hnd).2.2
    exact this hmem (List.mem_cons_self _ _)
  have hA := foldl_selectStep_floor g.inProgressModels A ⟨none, none⟩
    (fun x hx => by rw [htr]; exact List.mem_map.mpr ⟨x, hx, rfl⟩) (Or.inl rfl)
  have hstep := selectStep_take g.inProgressModels
    (A.foldl (selectStep (countRequests g.inProgressModels)) ⟨none, none⟩) m hm hcount hA
  unfold selectModel
  have h0 : ¬ g.availableModels.length = 0 := by rw [hav]; simp
  rw [if_neg h0]
  simp only [hav, List.foldl_append, List.foldl_cons, hstep, foldl_selectStep_zero]

/-- A body that reaches line 162 as an object with a truthy `model` is given the
model that `selectModel` returns: its id is appended to the tracker and stored on
the request (whether or not the conversion of line 175 throws afterwards). -/
theorem modifyRequestBody_acquires (J : JsonLib) (bodyContent : BodyContent) (q : Req)
    (g : Globals) (m : Model) (hrep : Replaceable J bodyContent)
    (hsel : selectModel g = Except.ok m) :
    (modifyRequestBody J bodyContent q g).g
        = { g with inProgressModels := g.inProgressModels ++ [m.id] } ∧
      (modifyRequestBody J bodyContent q g).req = { q with selectedModel := some m.id } := by
  obtain ⟨he, fields, v, hparse, hmodel, htruthy⟩ := hrep
  have hlen := selectModel_ok_length g m hsel
  have hmod : (modifyRequestBody J bodyContent q g).g = (tryBlock J bodyContent q g).g ∧
      (modifyRequestBody J bodyContent q g).req = (tryBlock J bodyContent q g).req := by
    unfold modifyRequestBody
    rw [he]
    simp only [Bool.false_eq_true, if_false]
    split <;> exact ⟨rfl, rfl⟩
  rw [hmod.1, hmod.2]
  have ht : tryBlock J bodyContent q g
      = replaceModel J bodyContent (BodyVal.json (JVal.obj fields)) q g := by
    simp [tryBlock, hparse]
  rw [ht]
  unfold replaceModel
  rw [if_pos hlen]
  simp only [hmodel, htruthy, if_true, hsel]
  split <;> exact ⟨rfl, rfl⟩

theorem rewritten_rewrites (reqs : List (Nat × BodyContent)) :
    rewritten (rewrites reqs) = reqs.map Prod.fst := by
  induction reqs with
  | nil => rfl
  | cons p reqs ih =>
    have : rewrites (p :: reqs) = Event.rewrite p.1 p.2 :: rewrites reqs := rfl
    rw [this]
    simp [rewritten, ih]

theorem rewritten_cleanups (cs : List Nat) : rewritten (cleanups cs) = [] := by
  induction cs with
  | nil => rfl
  | cons c cs ih =>
    have : cleanups (c :: cs) = Event.cleanup c :: cleanups cs := rfl
    rw [this]
    simpa [rewritten] using ih

theorem rewrites_snoc (reqs : List (Nat × BodyContent)) (p : Nat × BodyContent) :
    rewrites (reqs ++ [p]) = rewrites reqs ++ [Event.rewrite p.1 p.2] := by
  simp [rewrites]

/-- Requests rewritten one after another, each with a replaceable body, are given
the models of the registry in listed order: after as many rewrites as `A` has
models, the tracker holds the ids of `A` in order and the requests hold them in
order. -/
theorem rewrites_assign (J : JsonLib) (registry : List Model)
    (hids : (registry.map (fun x => x.id)).Nodup)
    (hkeys : ∀ x ∈ registry, x.id ∉ objectPrototypeKeys)
    (reqs : List (Nat × BodyContent)) (A B : List Model)
    (hsplit : registry = A ++ B) (hlen : A.length = reqs.length)
    (hnd : (reqs.map Prod.fst).Nodup) (hrep : ∀ p ∈ reqs, Replaceable J p.2) :
    (run J (Sys.start registry) (rewrites reqs)).g = ⟨registry, A.map (fun x => x.id)⟩ ∧
      reqs.map (fun p => ((run J (Sys.start registry) (rewrites reqs)).reqs p.1).selectedModel)
        = A.map (fun x => some x.id) := by
  induction reqs using List.reverseRecOn generalizing A B with
  | nil =>
    have hA : A = [] := List.length_eq_zero.mp (by simpa using hlen)
    subst hA
    exact ⟨rfl, rfl⟩
  | append_singleton reqs p ih =>
    have hAne : A ≠ [] := by
      intro h
      rw [h] at hlen
      simp at hlen
    rcases List.eq_nil_or_concat A with h | ⟨A', m, hA⟩
    · exact absurd h hAne
    · rw [List.concat_eq_append] at hA
      subst hA
      have hsplit' : registry = A' ++ m :: B := by
        rw [hsplit]; simp
      have hlen' : A'.length = reqs.length := by
        simp at hlen; exact hlen
      rw [List.map_append] at hnd
      have hnd' : (reqs.map Prod.fst).Nodup := (List.nodup_append.mp hnd).1
      have hp : p.1 ∉ reqs.map Prod.fst := by
        intro hin
        exact (List.nodup_append.mp hnd).2.2 hin (by simp)
      obtain ⟨hg, hselected⟩ := ih A' (m :: B) hsplit' hlen' hnd'
        (fun x hx => hrep x (List.mem_append_left _ hx))
      have hfresh : (run J (Sys.start registry) (rewrites reqs)).reqs p.1 = Req.fresh := by
        apply (accounting J registry (rewrites reqs) (by rw [rewritten_rewrites]; exact hnd')).1
        rw [rewritten_rewrites]; exact hp
      have hm : m.id ∉ objectPrototypeKeys :=
        hkeys m (by rw [hsplit']; simp)
      have hsel : selectModel (run J (Sys.start registry) (rewrites reqs)).g = Except.ok m :=
        selectModel_next _ A' B m (by rw [hg]; exact hsplit') (by rw [hg])
          (by rw [← hsplit']; exact hids) hm
      obtain ⟨hg', hq'⟩ := modifyRequestBody_acquires J p.2
        ((run J (Sys.start registry) (rewrites reqs)).reqs p.1)
        (run J (Sys.start registry) (rewrites reqs)).g m
        (hrep p (by simp)) hsel
      rw [rewrites_snoc, run_snoc]
      have hstepg : (step J (run J (Sys.start registry) (rewrites reqs))
          (Event.rewrite p.1 p.2)).g = ⟨registry, (A' ++ [m]).map (fun x => x.id)⟩ := by
        simp only [step]
        rw [hg', hg]
        simp
      have hstepr : (step J (run J (Sys.start registry) (rewrites reqs))
          (Event.rewrite p.1 p.2)).reqs
          = setReq (run J (Sys.start registry) (rewrites reqs)).reqs p.1
              ⟨some m.id, false⟩ := by
        simp only [step]
        rw [hq', hfresh]
        rfl
      refine ⟨hstepg, ?_⟩
      rw [hstepr, List.map_append, List.map_append]
      congr 1
      · rw [← hselected]
        apply List.map_congr_left
        intro x hx
        have hx1 : x.1 ≠ p.1 := by
          intro h
          exact hp (h ▸ List.mem_map.mpr ⟨x, hx, rfl⟩)
        simp [setReq, hx1]
      · simp [setReq]

theorem invokedAfter_append (r : Nat) (es es' : List Event)
    (hr : r ∈ rewritten es) (hc : es'.any (isCleanupOf r) = true) :
    invokedAfter r (es ++ es') = true := by
  induction es with
  | nil => simp [rewritten] at hr
  | cons e es ih =>
    cases e with
    | rewrite r' b =>
      by_cases h : r' = r
      · simp [invokedAfter, h, hc]
      · have hr' : r ∈ rewritten es := by
          simp only [rewritten, List.mem_cons] at hr
          rcases hr with hr | hr
          · exact absurd hr.symm h
          · exact hr
        simp [invokedAfter, h, ih hr']
    | cleanup r' => simpa [invokedAfter] using ih hr
    | refresh response => simpa [invokedAfter] using ih hr

/-- C11 (as stated, fails): with the registry `[m1, m2]` and an empty tracker, two
requests whose bodies carry a model field are rewritten one after the other; the
first body is `{"model": ""}`.  The first request is assigned nothing and the
second is assigned `m1`, not `m2`: line 162 replaces only a truthy model. -/
theorem falsy_model_not_assigned :
    ((run demoJson (Sys.start [⟨"m1", "loaded"⟩, ⟨"m2", "loaded"⟩])
        (rewrites [(0, BodyContent.obj [("model", JVal.str "")]),
                   (1, BodyContent.obj [("model", JVal.str "x")])])).reqs 0).selectedModel
      = none ∧
    ((run demoJson (Sys.start [⟨"m1", "loaded"⟩, ⟨"m2", "loaded"⟩])
        (rewrites [(0, BodyContent.obj [("model", JVal.str "")]),
                   (1, BodyContent.obj [("model", JVal.str "x")])])).reqs 1).selectedModel
      = some "m1" := by
  refine ⟨by rfl, by rfl⟩

/-- C11 (amended): let the registry list `k` models with pairwise distinct ids,
none of them empty and none the name of a property inherited from
`Object.prototype`, and let the tracker be empty.  Let `k` distinct requests be
rewritten one after another, with no cleanup or refresh in between, each with a
body that is a pre-parsed object or a string parsing to an object, passes line
148 and has a truthy `model`.  Then the requests are assigned the models in
registry order, each model once, and the tracker holds the ids in registry
order.  After cleanup invocations that cover all `k` requests (in any order, with
or without repetitions) the tracker is empty and `modelRequestCounts` is `{}`. -/
theorem round_of_requests (J : JsonLib) (registry : List Model)
    (reqs : List (Nat × BodyContent)) (cs : List Nat)
    (hids : (registry.map (fun x => x.id)).Nodup)
    (hkeys : ∀ x ∈ registry, x.id ∉ objectPrototypeKeys)
    (hne : ∀ x ∈ registry, x.id ≠ "")
    (hreqs : (reqs.map Prod.fst).Nodup)
    (hlen : reqs.length = registry.length)
    (hrep : ∀ p ∈ reqs, Replaceable J p.2)
    (hall : ∀ p ∈ reqs, p.1 ∈ cs) :
    reqs.map (fun p => ((run J (Sys.start registry) (rewrites reqs)).reqs p.1).selectedModel)
        = registry.map (fun x => some x.id) ∧
      (run J (Sys.start registry) (rewrites reqs)).g.inProgressModels
        = registry.map (fun x => x.id) ∧
      (run J (Sys.start registry) (rewrites reqs ++ cleanups cs)).g.inProgressModels = [] ∧
      countRequests
        (run J (Sys.start registry) (rewrites reqs ++ cleanups cs)).g.inProgressModels = [] := by
  obtain ⟨hg, hselected⟩ := rewrites_assign J registry hids hkeys reqs registry []
    (by simp) hlen.symm hreqs hrep
  have hrw : rewritten (rewrites reqs ++ cleanups cs) = reqs.map Prod.fst := by
    rw [rewritten_append, rewritten_rewrites, rewritten_cleanups, List.append_nil]
  have hnd : (rewritten (rewrites reqs ++ cleanups cs)).Nodup := by rw [hrw]; exact hreqs
  have hnr : ∀ e ∈ rewrites reqs ++ cleanups cs, isRefresh e = false := by
    intro e he
    rcases List.mem_append.mp he with he | he
    · obtain ⟨p, _, rfl⟩ := List.mem_map.mp he
      rfl
    · obtain ⟨c, _, rfl⟩ := List.mem_map.mp he
      rfl
  have hnp : NoPrune J (Sys.start registry) (rewrites reqs ++ cleanups cs) := by
    intro pre response post h
    have := hnr (Event.refresh response) (by rw [h]; simp)
    simp [isRefresh] at this
  have heq := (accounting J registry (rewrites reqs ++ cleanups cs) hnd).2.2 hnp
  have hheld := (held_in_registry J registry (rewrites reqs ++ cleanups cs) hnd hnr).2
  have hempty : (run J (Sys.start registry) (rewrites reqs ++ cleanups cs)).g.inProgressModels
      = [] := by
    rw [List.eq_nil_iff_forall_not_mem]
    intro m hm
    have hpos : 0 < inFlight (run J (Sys.start registry) (rewrites reqs ++ cleanups cs)).g m :=
      List.count_pos_iff.mpr hm
    have hzero : unreleasedCount (run J (Sys.start registry) (rewrites reqs ++ cleanups cs))
        (rewritten (rewrites reqs ++ cleanups cs)) m = 0 := by
      unfold unreleasedCount
      rw [List.countP_eq_zero]
      intro r hr hlive
      have hsel : ((run J (Sys.start registry) (rewrites reqs ++ cleanups cs)).reqs r).selectedModel
          = some m := by
        simp only [unreleased, Bool.and_eq_true, decide_eq_true_eq] at hlive
        exact hlive.1
      have hdone : ((run J (Sys.start registry) (rewrites reqs ++ cleanups cs)).reqs r).cleanupDone
          = false := by
        simp only [unreleased, Bool.and_eq_true, decide_eq_true_eq, Bool.not_eq_true'] at hlive
        exact hlive.2
      have hmne : m ≠ "" := by
        obtain ⟨x, hx, hxid⟩ := List.mem_map.mp (hheld r m hsel)
        rw [← hxid]
        exact hne x hx
      have hiff := flag_iff_invoked J registry (rewrites reqs ++ cleanups cs) hnd r m hsel hmne
      have hr' : r ∈ rewritten (rewrites reqs) := by
        rw [rewritten_rewrites]
        rw [hrw] at hr
        exact hr
      have hc : (cleanups cs).any (isCleanupOf r) = true := by
        rw [hrw] at hr
        obtain ⟨p, hp, hpr⟩ := List.mem_map.mp hr
        have hin : r ∈ cs := hpr ▸ hall p hp
        rw [List.any_eq_true]
        exact ⟨Event.cleanup r, List.mem_map.mpr ⟨r, hin, rfl⟩, by simp [isCleanupOf]⟩
      have hinv := invokedAfter_append r (rewrites reqs) (cleanups cs) hr' hc
      have := hiff.mpr hinv
      rw [hdone] at this
      cases this
    have := heq m
    omega
  refine ⟨?_, ?_, hempty, ?_⟩
  · rw [hselected]
  · rw [hg]
  · rw [hempty]; rfl

/-- Witness of `round_of_requests`: registry `[m1, m2]` and two requests with the
body text `{"model":"ignored"}` are assigned `m1` and then `m2`; after both
cleanups the tracker is empty. -/
theorem round_of_requests_witness :
    [(0, BodyContent.text "\x7b\"model\":\"ignored\"\x7d"),
      (1, BodyContent.text "\x7b\"model\":\"ignored\"\x7d")].map
        (fun p => ((run demoJson (Sys.start [⟨"m1", "loaded"⟩, ⟨"m2", "loaded"⟩])
          (rewrites [(0, BodyContent.text "\x7b\"model\":\"ignored\"\x7d"),
            (1, BodyContent.text "\x7b\"model\":\"ignored\"\x7d")])).reqs p.1).selectedModel)
      = [some "m1", some "m2"] ∧
    (run demoJson (Sys.start [⟨"m1", "loaded"⟩, ⟨"m2", "loaded"⟩])
        (rewrites [(0, BodyContent.text "\x7b\"model\":\"ignored\"\x7d"),
          (1, BodyContent.text "\x7b\"model\":\"ignored\"\x7d")]
          ++ cleanups [1, 0])).g.inProgressModels = [] :=
  have h := round_of_requests demoJson [⟨"m1", "loaded"⟩, ⟨"m2", "loaded"⟩]
    [(0, BodyContent.text "\x7b\"model\":\"ignored\"\x7d"),
      (1, BodyContent.text "\x7b\"model\":\"ignored\"\x7d")] [1, 0]
    (by decide)
    (by
      intro x hx
      simp at hx
      rcases hx with rfl | rfl <;> decide)
    (by
      intro x hx
      simp at hx
      rcases hx with rfl | rfl <;> decide)
    (by decide) rfl
    (by
      intro p hp
      simp at hp
      rcases hp with rfl | rfl <;>
        exact ⟨by rfl, [("model", JVal.str "ignored")], JVal.str "ignored", by rfl, by rfl,
          by rfl⟩)
    (by
      intro p hp
      simp at hp
      rcases hp with rfl | rfl <;> simp)
  ⟨h.1, h.2.2.1⟩

end LoadBalancer
